import Mathlib

/-!
Shallow embedding of `src/server.py` (serial sensor bridge): the line parser
(`parse_line` with its regexes), the alarm state machine on `SensorState`
(`set_alarm`, `acknowledge`, `get_effective_state`, `check_auto_reset`), the
event router (`handle_event`, `add_event`), and the websocket command handler
(`handle_ws_command`).

The Python regexes are embedded as token lists run by a deterministic
matcher (`runToks`).  Every greedy character class in the source regexes is
followed by a literal or class disjoint from it, so maximal munch agrees with
Python's backtracking semantics; `re.search` is embedded as trying the match
at every suffix, left to right, and `re.finditer` as the usual leftmost
non-overlapping scan.  Character classes are read in their ASCII meaning.
-/

namespace TplDemo

/-! ## Character classes -/

/-- `\d` (ASCII): the characters `'0'`..`'9'`. -/
def isDigitC (c : Char) : Bool := c.isDigit

/-- `\w` (ASCII): letters, digits and `'_'`. -/
def isWordC (c : Char) : Bool := c.isAlphanum || c = '_'

/-- `\s` / `str.strip` whitespace. -/
def isSpaceC (c : Char) : Bool :=
  c = ' ' || c = '\t' || c = '\n' || c = '\r' || c = '\x0b' || c = '\x0c'

/-- `\S`: any non-whitespace character. -/
def isNonSpaceC (c : Char) : Bool := !(isSpaceC c)

/-- `[01]` in `CONNECTED_RE`. -/
def isBitC (c : Char) : Bool := c = '0' || c = '1'

/-! ## Primitive matchers -/

/-- Consume a literal token; `some rest` iff the input starts with `tok`. -/
def lit : List Char → List Char → Option (List Char)
  | [], l => some l
  | _ :: _, [] => none
  | c :: tok, d :: l => if c = d then lit tok l else none

/-- `p+` with maximal munch: the (nonempty) longest prefix of characters
satisfying `p`, and the rest. -/
def takeWhile1 (p : Char → Bool) (l : List Char) : Option (List Char × List Char) :=
  let g := l.takeWhile p
  if g.isEmpty then none else some (g, l.dropWhile p)

/-- `-?`: greedily consume an optional leading minus sign. -/
def signSplit (l : List Char) : List Char × List Char :=
  match l with
  | '-' :: r => (['-'], r)
  | _ => ([], l)

/-- One regex piece: a literal, an uncaptured class repetition `p+`, a
captured `(p+)`, a captured single character `([c])`, a captured signed run
`(-?p+)`, or a final captured `(.*)` (which in Python runs to the next
newline or the end). -/
inductive Tok where
  | lit (s : List Char)
  | skip1 (p : Char → Bool)
  | grp1 (p : Char → Bool)
  | grpOne (p : Char → Bool)
  | grpSign (p : Char → Bool)
  | grpRest

/-- Run a token list at the head of the input; on success return the list of
captured groups, in order, and the rest of the input after the match.  All
the source regexes use `(.*)` only as their final piece, where greedy
matching consumes up to the newline or the end. -/
def runToks : List Tok → List Char → Option (List (List Char) × List Char)
  | [], l => some ([], l)
  | .lit s :: ts, l => (lit s l).bind fun r => runToks ts r
  | .skip1 p :: ts, l => (takeWhile1 p l).bind fun gr => runToks ts gr.2
  | .grp1 p :: ts, l =>
    (takeWhile1 p l).bind fun gr =>
      (runToks ts gr.2).bind fun x => some (gr.1 :: x.1, x.2)
  | .grpOne p :: ts, l =>
    match l with
    | [] => none
    | c :: r =>
      if p c then (runToks ts r).bind fun x => some ([c] :: x.1, x.2) else none
  | .grpSign p :: ts, l =>
    (takeWhile1 p (signSplit l).2).bind fun gr =>
      (runToks ts gr.2).bind fun x => some (((signSplit l).1 ++ gr.1) :: x.1, x.2)
  | .grpRest :: ts, l =>
    (runToks ts (l.dropWhile (fun c => c != '\n'))).bind fun x =>
      some (l.takeWhile (fun c => c != '\n') :: x.1, x.2)

/-- `re.search`: try the matcher at every suffix, left to right. -/
def searchToks (ts : List Tok) : List Char → Option (List (List Char) × List Char)
  | [] => runToks ts []
  | c :: rest =>
    match runToks ts (c :: rest) with
    | some a => some a
    | none => searchToks ts rest

/-! ## The regexes of `server.py` as token lists -/

/-- `ANSI_RE = \x1b\[[0-9;]*m` is handled separately by `ansiSub`. -/
def ansiClass (c : Char) : Bool := isDigitC c || c = ';'

/-- `TIMESTAMP_RE = ^\[(\d+)\]\s+I\s+(.*)` (used with `.match`, anchored). -/
def TIMESTAMP_RE : List Tok :=
  [.lit "[".toList, .grp1 isDigitC, .lit "]".toList, .skip1 isSpaceC,
   .lit "I".toList, .skip1 isSpaceC, .grpRest]

/-- `DETECTION_RE =
`CMD:DETECTION\s+(\w+)\((\d+)\)-(\w+)\((\d+)\)\s+th:(\d+)\s+val:(\d+)\s+c:(\d+)``. -/
def DETECTION_RE : List Tok :=
  [.lit "CMD:DETECTION".toList, .skip1 isSpaceC, .grp1 isWordC, .lit "(".toList,
   .grp1 isDigitC, .lit ")-".toList, .grp1 isWordC, .lit "(".toList, .grp1 isDigitC,
   .lit ")".toList, .skip1 isSpaceC, .lit "th:".toList, .grp1 isDigitC,
   .skip1 isSpaceC, .lit "val:".toList, .grp1 isDigitC, .skip1 isSpaceC,
   .lit "c:".toList, .grp1 isDigitC]

/-- `DETECTION_COMM_RE =
`CMD:DETECTION-COMM\s+(\w+)\((\d+)\)-(\w+)\((\d+)\)\s+(\d+)``. -/
def DETECTION_COMM_RE : List Tok :=
  [.lit "CMD:DETECTION-COMM".toList, .skip1 isSpaceC, .grp1 isWordC, .lit "(".toList,
   .grp1 isDigitC, .lit ")-".toList, .grp1 isWordC, .lit "(".toList, .grp1 isDigitC,
   .lit ")".toList, .skip1 isSpaceC, .grp1 isDigitC]

/-- `CONNECTED_RE =
`CMD:CONNECTED\s+(\w+)\((\d+)\)\s+connected:(\w+)\((\d+)\)\s+([01])``. -/
def CONNECTED_RE : List Tok :=
  [.lit "CMD:CONNECTED".toList, .skip1 isSpaceC, .grp1 isWordC, .lit "(".toList,
   .grp1 isDigitC, .lit ")".toList, .skip1 isSpaceC, .lit "connected:".toList,
   .grp1 isWordC, .lit "(".toList, .grp1 isDigitC, .lit ")".toList,
   .skip1 isSpaceC, .grpOne isBitC]

/-- `MAP_RSP_RE =
`CMD:MAP_RSP\s+from\s+(\d+)\s+ver:(\S+)\s+gain:(\d+)\s+voltage:(\d+)\s+scan:(\d+)\s+adv:(\d+):\s+(.*)``. -/
def MAP_RSP_RE : List Tok :=
  [.lit "CMD:MAP_RSP".toList, .skip1 isSpaceC, .lit "from".toList, .skip1 isSpaceC,
   .grp1 isDigitC, .skip1 isSpaceC, .lit "ver:".toList, .grp1 isNonSpaceC,
   .skip1 isSpaceC, .lit "gain:".toList, .grp1 isDigitC, .skip1 isSpaceC,
   .lit "voltage:".toList, .grp1 isDigitC, .skip1 isSpaceC, .lit "scan:".toList,
   .grp1 isDigitC, .skip1 isSpaceC, .lit "adv:".toList, .grp1 isDigitC,
   .lit ":".toList, .skip1 isSpaceC, .grpRest]

/-- `MAP_PEER_RE = `\[(\d+)\s+th3:(\d+)\s+(-?\d+)dBm\s+dt:(\d+)\]``. -/
def MAP_PEER_RE : List Tok :=
  [.lit "[".toList, .grp1 isDigitC, .skip1 isSpaceC, .lit "th3:".toList,
   .grp1 isDigitC, .skip1 isSpaceC, .grpSign isDigitC, .lit "dBm".toList,
   .skip1 isSpaceC, .lit "dt:".toList, .grp1 isDigitC, .lit "]".toList]

/-! ## Inversion lemmas for `runToks` -/

theorem runToks_nil_inv {l : List Char} {gs r}
    (h : runToks [] l = some (gs, r)) : gs = [] ∧ r = l := by
  simp only [runToks, Option.some.injEq, Prod.mk.injEq] at h
  exact ⟨h.1.symm, h.2.symm⟩

theorem runToks_lit_inv {s : List Char} {ts l x}
    (h : runToks (.lit s :: ts) l = some x) :
    ∃ r0, lit s l = some r0 ∧ runToks ts r0 = some x := by
  simpa only [runToks, Option.bind_eq_some] using h

theorem runToks_skip1_inv {p : Char → Bool} {ts l x}
    (h : runToks (.skip1 p :: ts) l = some x) :
    ∃ g r0, takeWhile1 p l = some (g, r0) ∧ runToks ts r0 = some x := by
  simp only [runToks, Option.bind_eq_some] at h
  obtain ⟨⟨g, r0⟩, h0, h1⟩ := h
  exact ⟨g, r0, h0, h1⟩

theorem runToks_grp1_inv {p : Char → Bool} {ts l gs r}
    (h : runToks (.grp1 p :: ts) l = some (gs, r)) :
    ∃ g r0 gs', takeWhile1 p l = some (g, r0) ∧
      runToks ts r0 = some (gs', r) ∧ gs = g :: gs' := by
  simp only [runToks, Option.bind_eq_some] at h
  obtain ⟨⟨g, r0⟩, h0, ⟨gs', r1⟩, h1, h2⟩ := h
  simp only [Option.some.injEq, Prod.mk.injEq] at h2
  obtain ⟨hgs, hr⟩ := h2
  subst hr
  exact ⟨g, r0, gs', h0, h1, hgs.symm⟩

theorem runToks_grpOne_inv {p : Char → Bool} {ts l gs r}
    (h : runToks (.grpOne p :: ts) l = some (gs, r)) :
    ∃ c r0 gs', l = c :: r0 ∧ p c = true ∧
      runToks ts r0 = some (gs', r) ∧ gs = [c] :: gs' := by
  match l with
  | [] => exact absurd h (by simp [runToks])
  | c :: r0 =>
    simp only [runToks] at h
    by_cases hp : p c
    · rw [if_pos hp] at h
      simp only [Option.bind_eq_some] at h
      obtain ⟨⟨gs', r1⟩, h1, h2⟩ := h
      simp only [Option.some.injEq, Prod.mk.injEq] at h2
      obtain ⟨hgs, hr⟩ := h2
      subst hr
      exact ⟨c, r0, gs', rfl, hp, h1, hgs.symm⟩
    · rw [if_neg hp] at h
      exact absurd h (by simp)

theorem runToks_grpSign_inv {p : Char → Bool} {ts l gs r}
    (h : runToks (.grpSign p :: ts) l = some (gs, r)) :
    ∃ g r0 gs', takeWhile1 p (signSplit l).2 = some (g, r0) ∧
      runToks ts r0 = some (gs', r) ∧ gs = ((signSplit l).1 ++ g) :: gs' := by
  simp only [runToks, Option.bind_eq_some] at h
  obtain ⟨⟨g, r0⟩, h0, ⟨gs', r1⟩, h1, h2⟩ := h
  simp only [Option.some.injEq, Prod.mk.injEq] at h2
  obtain ⟨hgs, hr⟩ := h2
  subst hr
  exact ⟨g, r0, gs', h0, h1, hgs.symm⟩

theorem runToks_grpRest_inv {ts : List Tok} {l gs r}
    (h : runToks (.grpRest :: ts) l = some (gs, r)) :
    ∃ gs', runToks ts (l.dropWhile (fun c => c != '\n')) = some (gs', r) ∧
      gs = l.takeWhile (fun c => c != '\n') :: gs' := by
  simp only [runToks, Option.bind_eq_some] at h
  obtain ⟨⟨gs', r1⟩, h1, h2⟩ := h
  simp only [Option.some.injEq, Prod.mk.injEq] at h2
  obtain ⟨hgs, hr⟩ := h2
  subst hr
  exact ⟨gs', h1, hgs.symm⟩

/-! ## Length bookkeeping (termination of the scanning loops) -/

theorem length_dropWhile_le (p : Char → Bool) (l : List Char) :
    (l.dropWhile p).length ≤ l.length := by
  have h := List.takeWhile_append_dropWhile (p := p) (l := l)
  have := congrArg List.length h
  simp only [List.length_append] at this
  omega

theorem lit_length {tok l r : List Char} (h : lit tok l = some r) :
    r.length + tok.length = l.length := by
  induction tok generalizing l with
  | nil => simp only [lit, Option.some.injEq] at h; subst h; simp
  | cons c tok ih =>
    match l with
    | [] => simp [lit] at h
    | d :: l' =>
      simp only [lit] at h
      split at h
      · have := ih h
        simp only [List.length_cons]
        omega
      · exact absurd h (by simp)

theorem takeWhile1_sound {p : Char → Bool} {l g r : List Char}
    (h : takeWhile1 p l = some (g, r)) :
    g ≠ [] ∧ (∀ c ∈ g, p c = true) ∧ l = g ++ r := by
  simp only [takeWhile1] at h
  split at h
  · exact absurd h (by simp)
  · rename_i hne
    simp only [Option.some.injEq, Prod.mk.injEq] at h
    obtain ⟨hg, hr⟩ := h
    subst hg; subst hr
    refine ⟨by simpa [List.isEmpty_iff] using hne, ?_, ?_⟩
    · intro c hc
      exact List.mem_takeWhile_imp hc
    · exact (List.takeWhile_append_dropWhile (p := p) (l := l)).symm

theorem takeWhile1_length {p : Char → Bool} {l g r : List Char}
    (h : takeWhile1 p l = some (g, r)) : r.length < l.length := by
  obtain ⟨hne, _, hl⟩ := takeWhile1_sound h
  subst hl
  have : 0 < g.length := List.length_pos.mpr hne
  simp only [List.length_append]
  omega

theorem signSplit_length (l : List Char) : (signSplit l).2.length ≤ l.length := by
  unfold signSplit
  split <;> simp

theorem runToks_rest_length {ts : List Tok} {l gs r} (h : runToks ts l = some (gs, r)) :
    r.length ≤ l.length := by
  induction ts generalizing l gs r with
  | nil =>
    obtain ⟨-, hr⟩ := runToks_nil_inv h
    subst hr
    exact le_refl _
  | cons t ts ih =>
    match t with
    | .lit s =>
      obtain ⟨r0, h0, h1⟩ := runToks_lit_inv h
      have e0 := lit_length h0
      have e1 := ih h1
      omega
    | .skip1 p =>
      obtain ⟨g, r0, h0, h1⟩ := runToks_skip1_inv h
      have e0 := takeWhile1_length h0
      have e1 := ih h1
      omega
    | .grp1 p =>
      obtain ⟨g, r0, gs', h0, h1, -⟩ := runToks_grp1_inv h
      have e0 := takeWhile1_length h0
      have e1 := ih h1
      omega
    | .grpOne p =>
      obtain ⟨c, r0, gs', hl, -, h1, -⟩ := runToks_grpOne_inv h
      subst hl
      have e1 := ih h1
      simp only [List.length_cons]
      omega
    | .grpSign p =>
      obtain ⟨g, r0, gs', h0, h1, -⟩ := runToks_grpSign_inv h
      have e0 := takeWhile1_length h0
      have es := signSplit_length l
      have e1 := ih h1
      omega
    | .grpRest =>
      obtain ⟨gs', h1, -⟩ := runToks_grpRest_inv h
      have e0 := length_dropWhile_le (fun c => c != '\n') l
      have e1 := ih h1
      omega

theorem runToks_peer_length {l gs r} (h : runToks MAP_PEER_RE l = some (gs, r)) :
    r.length < l.length := by
  obtain ⟨r0, h0, h1⟩ := runToks_lit_inv h
  have e0 := lit_length h0
  have e1 := runToks_rest_length h1
  have : ("[".toList : List Char).length = 1 := by decide
  omega

/-! ## `str.strip` and `int` -/

/-- `str.strip()`. -/
def pyStrip (l : List Char) : List Char :=
  ((l.dropWhile isSpaceC).reverse.dropWhile isSpaceC).reverse

/-- Numeric value of a digit character. -/
def digitVal (c : Char) : Nat := c.toNat - 48

/-- Base-10 value of a digit string. -/
def digitsVal (l : List Char) : Nat := l.foldl (fun a c => a * 10 + digitVal c) 0

/-- The sign-and-digits check of `int(str)`, applied to the stripped text. -/
def pyIntCore : List Char → Option Int
  | [] => none
  | c :: ds =>
    if c = '-' then
      if ds ≠ [] ∧ ds.all isDigitC then some (-(digitsVal ds : Int)) else none
    else if c = '+' then
      if ds ≠ [] ∧ ds.all isDigitC then some ((digitsVal ds : Int)) else none
    else
      if (c :: ds).all isDigitC then some ((digitsVal (c :: ds) : Int)) else none

/-- Python `int(str)`: optional surrounding whitespace, an optional sign,
then a nonempty run of digits; anything else raises (`none`). -/
def pyInt (l : List Char) : Option Int := pyIntCore (pyStrip l)

/-! ## `ANSI_RE.sub("", raw)` -/

/-- After an `ESC`, try to consume `\[[0-9;]*m` and return what follows. -/
def ansiTail (l : List Char) : Option (List Char) :=
  match l with
  | '[' :: r =>
    match r.dropWhile ansiClass with
    | 'm' :: r' => some r'
    | _ => none
  | _ => none

theorem ansiTail_length {l r : List Char} (h : ansiTail l = some r) :
    r.length < l.length := by
  unfold ansiTail at h
  split at h
  · rename_i t
    split at h
    · rename_i r' heq
      cases h
      have h1 := length_dropWhile_le ansiClass t
      rw [heq] at h1
      simp only [List.length_cons] at h1 ⊢
      omega
    · exact absurd h (by simp)
  · exact absurd h (by simp)

/-- `ANSI_RE.sub("", raw)`, one scan step per fuel unit: delete every
(leftmost, non-overlapping) match of `\x1b\[[0-9;]*m`; an `ESC` not starting
a full match is kept.  The fuel (always instantiated with the input length,
which bounds the number of steps) only makes the recursion structural. -/
def ansiSubGo : Nat → List Char → List Char
  | _, [] => []
  | 0, l => l
  | fuel + 1, c :: rest =>
    if c = '\x1b' then
      match ansiTail rest with
      | some after => ansiSubGo fuel after
      | none => c :: ansiSubGo fuel rest
    else
      c :: ansiSubGo fuel rest

/-- `ANSI_RE.sub("", raw)`. -/
def ansiSub (l : List Char) : List Char := ansiSubGo l.length l

/-! ## `MAP_PEER_RE.finditer(peers_str)` -/

/-- `re.finditer` scan body, one position per fuel unit (the fuel, always
instantiated with the input length, only makes the recursion structural):
leftmost non-overlapping matches of `MAP_PEER_RE`, each a group list,
scanning left to right and resuming after each match. -/
def peerScanGo : Nat → List Char → List (List (List Char))
  | _, [] => []
  | 0, _ => []
  | fuel + 1, c :: rest =>
    match runToks MAP_PEER_RE (c :: rest) with
    | some (gs, after) => gs :: peerScanGo fuel after
    | none => peerScanGo fuel rest

/-- `MAP_PEER_RE.finditer(peers_str)`. -/
def peerScan (l : List Char) : List (List (List Char)) := peerScanGo l.length l

/-! ## Events (the parsed dicts) -/

/-- A peer record inside a map event (`{"id", "threshold", "rssi", "dt"}`). -/
structure PeerInfo where
  id : Int
  threshold : Int
  rssi : Int
  dt : Int
deriving DecidableEq, Repr

/-- A parsed event dict. `conn` stands for the `"connected"` key of a
`connected` event. Every variant carries `device_ts` (the device clock) and
`timestamp` (the ISO wall-clock string computed at parse time). -/
inductive Event where
  | detection (unit_a unit_b : Int) (id_a id_b : String)
      (threshold value count : Int) (device_ts : Int) (timestamp : String)
  | comm_loss (unit_a unit_b : Int) (id_a id_b : String)
      (value : Int) (device_ts : Int) (timestamp : String)
  | connected (unit : Int) (id_unit : String) (peer : Int) (id_peer : String)
      (conn : Bool) (device_ts : Int) (timestamp : String)
  | map (unit_id : Int) (version : String) (gain voltage : Int)
      (peers : List PeerInfo) (device_ts : Int) (timestamp : String)
deriving DecidableEq, Repr

/-- Result of `parse_line`: an uncaught exception, `None`, or one event. -/
inductive POut where
  | exc
  | noEvent
  | event (e : Event)
deriving DecidableEq, Repr

/-- `m.group(i)` (1-based, on the group list returned by `runToks`). -/
def grp (gs : List (List Char)) (i : Nat) : List Char := gs.getD (i - 1) []

/-- Convert one `MAP_PEER_RE` group list to a peer dict; `none` on an `int()`
failure (which `parse_line` would surface as an exception). -/
def buildPeer (gs : List (List Char)) : Option PeerInfo :=
  (pyInt (grp gs 1)).bind fun i =>
    (pyInt (grp gs 2)).bind fun th =>
      (pyInt (grp gs 3)).bind fun rs =>
        (pyInt (grp gs 4)).bind fun dt =>
          some ⟨i, th, rs, dt⟩

/-- The detection dict built at a `DETECTION_RE` match (`.exc` = a failed
`int()`, which cannot happen on real captures). -/
def detectionEvent (now : String) (device_ts : Int) (gs : List (List Char)) : POut :=
  match pyInt (grp gs 2), pyInt (grp gs 4), pyInt (grp gs 5),
      pyInt (grp gs 6), pyInt (grp gs 7) with
  | some ua, some ub, some th, some v, some c =>
    .event (.detection ua ub ⟨grp gs 1⟩ ⟨grp gs 3⟩ th v c device_ts now)
  | _, _, _, _, _ => .exc

/-- The comm-loss dict built at a `DETECTION_COMM_RE` match. -/
def commEvent (now : String) (device_ts : Int) (gs : List (List Char)) : POut :=
  match pyInt (grp gs 2), pyInt (grp gs 4), pyInt (grp gs 5) with
  | some ua, some ub, some v =>
    .event (.comm_loss ua ub ⟨grp gs 1⟩ ⟨grp gs 3⟩ v device_ts now)
  | _, _, _ => .exc

/-- The connected dict built at a `CONNECTED_RE` match. -/
def connEvent (now : String) (device_ts : Int) (gs : List (List Char)) : POut :=
  match pyInt (grp gs 2), pyInt (grp gs 4) with
  | some u, some p =>
    .event (.connected u ⟨grp gs 1⟩ p ⟨grp gs 3⟩ (grp gs 5 = ['1']) device_ts now)
  | _, _ => .exc

/-- The map dict built at a `MAP_RSP_RE` match, with its peer scan. -/
def mapEvent (now : String) (device_ts : Int) (gs : List (List Char)) : POut :=
  match (peerScan (grp gs 7)).mapM buildPeer with
  | none => .exc
  | some peers =>
    match pyInt (grp gs 1), pyInt (grp gs 3), pyInt (grp gs 4) with
    | some uid, some gain, some volt =>
      .event (.map uid ⟨grp gs 2⟩ gain volt peers device_ts now)
    | _, _, _ => .exc

/-- The grammar cascade of `parse_line` on the content after the timestamp
header: try `DETECTION_RE`, `DETECTION_COMM_RE`, `CONNECTED_RE`,
`MAP_RSP_RE` in order, via `re.search`, returning the first match's dict. -/
def dispatchContent (now : String) (device_ts : Int) (content : List Char) : POut :=
  match searchToks DETECTION_RE content with
  | some (gs, _) => detectionEvent now device_ts gs
  | none =>
    match searchToks DETECTION_COMM_RE content with
    | some (gs, _) => commEvent now device_ts gs
    | none =>
      match searchToks CONNECTED_RE content with
      | some (gs, _) => connEvent now device_ts gs
      | none =>
        match searchToks MAP_RSP_RE content with
        | some (gs, _) => mapEvent now device_ts gs
        | none => .noEvent

/-- `parse_line(raw_line)`, parameterised by the wall-clock string `now`
(`datetime.now().isoformat(timespec="milliseconds")`). -/
def parseLine (now : String) (rawLine : String) : POut :=
  if pyStrip (ansiSub rawLine.toList) = [] then .noEvent
  else
    match runToks TIMESTAMP_RE (pyStrip (ansiSub rawLine.toList)) with
    | none => .noEvent
    | some (tgs, _) =>
      match pyInt (grp tgs 1) with
      | none => .exc
      | some device_ts => dispatchContent now device_ts (grp tgs 2)

/-! ## `SensorState` and the alarm state machine -/

/-- `AUTO_RESET_TIMEOUT = 4.0` seconds (wall-clock time modelled as `ℚ`). -/
def AUTO_RESET_TIMEOUT : ℚ := 4

/-- The shared `SensorState` object (its pure fields; the lock, the serial
handle and the websocket registry are concurrency plumbing with no bearing on
the state transitions modelled here). `acknowledged` is `_acknowledged`. -/
structure SensorState where
  serial_connected : Bool
  alarm_state : String
  alarm_mode : String
  last_detection_time : ℚ
  events : List Event
  max_events : Nat
  map_data : List Event
  acknowledged : Bool
  detection_enabled : Bool
  saved_threshold : Int
deriving DecidableEq, Repr

/-- `SensorState.__init__`. -/
def initialState : SensorState where
  serial_connected := false
  alarm_state := "disconnected"
  alarm_mode := "auto"
  last_detection_time := 0
  events := []
  max_events := 50
  map_data := []
  acknowledged := false
  detection_enabled := true
  saved_threshold := 500

/-- `SensorState.add_event`: push at the front, drop the last entry when the
list exceeds `max_events`. -/
def add_event (e : Event) (s : SensorState) : SensorState :=
  let evs := e :: s.events
  { s with events := if evs.length > s.max_events then evs.dropLast else evs }

/-- `SensorState.set_alarm`. -/
def set_alarm (st : String) (s : SensorState) : SensorState :=
  let ack1 :=
    if st = "alarm" ∧ s.alarm_state = "alarm" ∧ s.acknowledged then
      (if s.alarm_mode = "manual" then false else s.acknowledged)
    else s.acknowledged
  let ack2 := if st ≠ s.alarm_state then false else ack1
  { s with alarm_state := st, acknowledged := ack2 }

/-- `SensorState.acknowledge`. -/
def acknowledge (s : SensorState) : SensorState :=
  { s with acknowledged := true,
           alarm_state := if s.alarm_mode = "manual" then "clear" else s.alarm_state }

/-- `SensorState.get_effective_state`. -/
def get_effective_state (s : SensorState) : String :=
  if s.alarm_state = "alarm" ∧ s.alarm_mode = "manual" ∧ s.acknowledged then "clear"
  else s.alarm_state

/-- `check_auto_reset`, at wall-clock time `now`. -/
def check_auto_reset (now : ℚ) (s : SensorState) : SensorState :=
  if s.alarm_mode = "auto" ∧ s.alarm_state = "alarm" then
    if now - s.last_detection_time > AUTO_RESET_TIMEOUT then set_alarm "clear" s else s
  else s

/-! ## The event router (`handle_event`) -/

/-- `event["type"]`. -/
def Event.etype : Event → String
  | .detection .. => "detection"
  | .comm_loss .. => "comm_loss"
  | .connected .. => "connected"
  | .map .. => "map"

/-- `event["unit_id"]` — only ever read on `map` events (the cache holds
nothing else); the value on other variants is never used. -/
def eventUnitId : Event → Int
  | .map uid _ _ _ _ _ _ => uid
  | _ => 0

/-- Insert into a list sorted ascending by `unit_id`, after existing equal
keys (stable). -/
def insertByUnitId (e : Event) : List Event → List Event
  | [] => [e]
  | x :: xs =>
    if eventUnitId x ≤ eventUnitId e then x :: insertByUnitId e xs
    else e :: x :: xs

/-- `list.sort(key=lambda u: u["unit_id"])`: stable ascending sort. -/
def sortByUnitId (l : List Event) : List Event :=
  l.foldl (fun acc e => insertByUnitId e acc) []

/-- `handle_event(event)`, at wall-clock time `now` (the broadcast calls at
the end have no effect on `SensorState`). -/
def handle_event (now : ℚ) (e : Event) (s : SensorState) : SensorState :=
  let s1 :=
    if e.etype = "detection" then
      set_alarm "alarm" { s with last_detection_time := now }
    else if e.etype = "comm_loss" then
      set_alarm "comm_loss" s
    else if e.etype = "connected" then
      s
    else if e.etype = "map" then
      { s with map_data :=
          sortByUnitId ((s.map_data.filter fun u => eventUnitId u != eventUnitId e) ++ [e]) }
    else s
  if e.etype ≠ "map" then add_event e s1 else s1

/-- Route a sequence of parsed events, each tagged with its arrival time. -/
def route (l : List (ℚ × Event)) (s : SensorState) : SensorState :=
  l.foldl (fun st te => handle_event te.1 te.2 st) s

/-! ## The websocket command handler (`handle_ws_command`) -/

/-- A `status` message as built by `broadcast_status` — the only view of the
alarm ever serialized (`alarm_state` is the effective state). -/
structure Status where
  serial_connected : Bool
  alarm_state : String
  alarm_mode : String
  detection_enabled : Bool
deriving DecidableEq, Repr

/-- The status snapshot `broadcast_status()` takes of a state. -/
def statusOf (s : SensorState) : Status :=
  ⟨s.serial_connected, get_effective_state s, s.alarm_mode, s.detection_enabled⟩

/-- A JSON scalar as found in a command message field. -/
inductive Json where
  | str (s : String)
  | int (n : Int)
deriving DecidableEq, Repr

/-- Python `int(x)` on a decoded JSON value: an `int` is returned as is, a
string is parsed, anything unparsable raises (`none`). -/
def pyIntJson : Json → Option Int
  | .str s => pyInt s.toList
  | .int n => some n

/-- A decoded client command message: `msg.get("cmd")`, `msg.get("mode")`
and `msg["value"]` (`none` = field absent). -/
structure WsMsg where
  cmd : Option String
  mode : Option String
  value : Option Json
deriving DecidableEq, Repr

/-- Result of one `handle_ws_command` call: the new state, the
`send_serial` calls in order, and the `broadcast_status` snapshots in order
(`asyncio.sleep` steps are timing only and are not modelled). -/
structure CmdEffect where
  state : SensorState
  serial : List String
  statuses : List Status
deriving DecidableEq, Repr

/-- `handle_ws_command(msg)`: `.error` models an exception escaping the
handler (a `KeyError` on a missing `"value"` or a `ValueError`/`TypeError`
from `int()`); the `websocket_endpoint` receive loop catches only
`WebSocketDisconnect`, so such an exception terminates that loop. -/
def handle_ws_command (msg : WsMsg) (s : SensorState) : Except String CmdEffect :=
  if msg.cmd = some "set_threshold" then
    match msg.value with
    | none => .error "KeyError"
    | some v =>
      match pyIntJson v with
      | none => .error "ValueError"
      | some value =>
        .ok ⟨{ s with saved_threshold := value, detection_enabled := true },
          ["/", "mpedT", "threshold " ++ toString value, "/", "cmd", "re 3 4"], []⟩
  else if msg.cmd = some "set_gain" then
    match msg.value with
    | none => .error "KeyError"
    | some v =>
      match pyIntJson v with
      | none => .error "ValueError"
      | some value =>
        .ok ⟨s, ["/", "mpedT", "gain " ++ toString value, "/", "cmd", "re 3 4"], []⟩
  else if msg.cmd = some "map" then
    .ok ⟨s, ["/", "cmd", "map"], []⟩
  else if msg.cmd = some "acknowledge" then
    let s' := acknowledge s
    .ok ⟨s', [], [statusOf s']⟩
  else if msg.cmd = some "toggle_detection" then
    let s1 := { s with detection_enabled := !s.detection_enabled }
    let value := if s1.detection_enabled then s1.saved_threshold else 0
    .ok ⟨s1, ["/", "mpedT", "threshold " ++ toString value, "/", "cmd", "re 3 4"],
      [statusOf s1]⟩
  else if msg.cmd = some "set_alarm_mode" then
    let mode := msg.mode.getD "auto"
    if mode = "auto" ∨ mode = "manual" then
      let s' := { s with alarm_mode := mode }
      .ok ⟨s', [], [statusOf s']⟩
    else
      .ok ⟨s, [], []⟩
  else
    .ok ⟨s, [], []⟩

/-! ## Claims about the alarm state machine -/

/-- **C2** — `get_effective_state` returns `"clear"` iff (raw state is
`"alarm"` and mode is `"manual"` and acknowledged) or the raw state is
itself `"clear"`; in every other case it returns the raw state verbatim. -/
theorem C2_effective_state (s : SensorState) :
    (get_effective_state s = "clear" ↔
      ((s.alarm_state = "alarm" ∧ s.alarm_mode = "manual" ∧ s.acknowledged = true) ∨
        s.alarm_state = "clear")) ∧
    (¬(s.alarm_state = "alarm" ∧ s.alarm_mode = "manual" ∧ s.acknowledged = true) →
      get_effective_state s = s.alarm_state) := by
  unfold get_effective_state
  by_cases h : s.alarm_state = "alarm" ∧ s.alarm_mode = "manual" ∧ s.acknowledged = true
  · rw [if_pos h]
    exact ⟨⟨fun _ => Or.inl h, fun _ => rfl⟩, fun hn => absurd h hn⟩
  · rw [if_neg h]
    refine ⟨⟨fun hc => Or.inr hc, fun hc => ?_⟩, fun _ => rfl⟩
    rcases hc with hc | hc
    · exact absurd hc h
    · exact hc

/-- Witness for C2 at a concrete state: manual acknowledged alarm reads as
`"clear"`. -/
theorem C2_witness :
    get_effective_state { initialState with
      alarm_state := "alarm", alarm_mode := "manual", acknowledged := true } = "clear" :=
  (C2_effective_state _).1.mpr (Or.inl ⟨rfl, rfl, rfl⟩)

/-- The starting state refuting the auto-mode half of C1 as universally
stated: `auto` mode, raw state already `"alarm"`, acknowledged.  (Reachable:
in auto mode an `acknowledge` command sets the flag without clearing the
state, and a further detection re-enters `set_alarm("alarm")`.) -/
def c1AutoStart : SensorState :=
  { initialState with alarm_mode := "auto", alarm_state := "alarm", acknowledged := true }

/-- **C1 counterexample** — under `alarm_mode = "auto"`, `set_alarm("alarm")`
does *not* always leave `acknowledged = false`: from an acknowledged raw
`"alarm"` state the flag survives, because the re-arm reset is gated on
manual mode and the state-change reset does not fire when the state is
unchanged. -/
theorem C1_counterexample :
    c1AutoStart.alarm_mode = "auto" ∧
      (set_alarm "alarm" c1AutoStart).acknowledged = true := by
  constructor <;> rfl

/-- **C1 (amended)** — the sequence `set_alarm("alarm"); acknowledge();
set_alarm("alarm")` from any state with `alarm_mode = "manual"` ends with raw
state `"alarm"` and `acknowledged = false`; under `alarm_mode = "auto"` the
*first* `set_alarm("alarm")` leaves `acknowledged = false` unless the start
state is already raw `"alarm"` with `acknowledged = true`, in which case the
flag stays `true`. -/
theorem C1_rearm_amended :
    (∀ s : SensorState, s.alarm_mode = "manual" →
      (set_alarm "alarm" (acknowledge (set_alarm "alarm" s))).alarm_state = "alarm" ∧
      (set_alarm "alarm" (acknowledge (set_alarm "alarm" s))).acknowledged = false) ∧
    (∀ s : SensorState, s.alarm_mode = "auto" →
      ¬(s.alarm_state = "alarm" ∧ s.acknowledged = true) →
      (set_alarm "alarm" s).acknowledged = false) ∧
    (∀ s : SensorState, s.alarm_mode = "auto" →
      s.alarm_state = "alarm" → s.acknowledged = true →
      (set_alarm "alarm" s).acknowledged = true) := by
  refine ⟨fun s hm => ?_, fun s hm hn => ?_, fun s hm ha hk => ?_⟩
  · simp only [set_alarm, acknowledge, hm]
    split_ifs <;> simp_all
  · simp only [set_alarm]
    split_ifs <;> simp_all
  · simp only [set_alarm, hm, ha, hk]
    split_ifs <;> simp_all

/-- Witness for C1 (amended) at a concrete manual-mode state. -/
theorem C1_witness :
    (set_alarm "alarm" (acknowledge (set_alarm "alarm"
      { initialState with alarm_mode := "manual" }))).alarm_state = "alarm" :=
  (C1_rearm_amended.1 { initialState with alarm_mode := "manual" } rfl).1

/-- **C8** — with `alarm_mode = "auto"` and raw state `"alarm"`, the
auto-reset check moves the raw state to `"clear"` exactly when the elapsed
wall-clock time since `last_detection_time` strictly exceeds
`AUTO_RESET_TIMEOUT` (4.0 s), and leaves the state entirely unchanged when
the elapsed time is at most 4.0 s. -/
theorem C8_auto_reset (s : SensorState) (now : ℚ)
    (hm : s.alarm_mode = "auto") (ha : s.alarm_state = "alarm") :
    ((check_auto_reset now s).alarm_state = "clear" ↔
      now - s.last_detection_time > AUTO_RESET_TIMEOUT) ∧
    (now - s.last_detection_time ≤ AUTO_RESET_TIMEOUT → check_auto_reset now s = s) := by
  unfold check_auto_reset
  rw [if_pos ⟨hm, ha⟩]
  constructor
  · constructor
    · intro hc
      by_contra hle
      rw [if_neg hle] at hc
      rw [ha] at hc
      exact absurd hc (by decide)
    · intro hgt
      rw [if_pos hgt]
      rfl
  · intro hle
    rw [if_neg (by exact not_lt.mpr hle)]

/-- Witness for C8: concrete auto-mode alarm state, 5 s after the last
detection, resets to `"clear"`; 4 s after, it is untouched. -/
theorem C8_witness :
    (check_auto_reset 5 { initialState with
        alarm_mode := "auto", alarm_state := "alarm" }).alarm_state = "clear" ∧
    check_auto_reset 4 { initialState with
        alarm_mode := "auto", alarm_state := "alarm" } =
      { initialState with alarm_mode := "auto", alarm_state := "alarm" } :=
  ⟨(C8_auto_reset _ 5 rfl rfl).1.mpr (by norm_num [AUTO_RESET_TIMEOUT, initialState]),
   (C8_auto_reset _ 4 rfl rfl).2 (by norm_num [AUTO_RESET_TIMEOUT, initialState])⟩

/-! ## Claims about the websocket command handler -/

/-- **C9** — a `set_alarm_mode` message with no `"mode"` field defaults the
mode to `"auto"` (`msg.get("mode", "auto")`), sets it and publishes a status
update; only a present mode outside `{"auto", "manual"}` leaves the state
unchanged and publishes nothing. -/
theorem C9_set_alarm_mode :
    (∀ (s : SensorState) (msg : WsMsg), msg.cmd = some "set_alarm_mode" →
      msg.mode = none →
      handle_ws_command msg s =
        .ok ⟨{ s with alarm_mode := "auto" }, [],
          [statusOf { s with alarm_mode := "auto" }]⟩) ∧
    (∀ (s : SensorState) (msg : WsMsg) (m : String), msg.cmd = some "set_alarm_mode" →
      msg.mode = some m → m ≠ "auto" → m ≠ "manual" →
      handle_ws_command msg s = .ok ⟨s, [], []⟩) := by
  constructor
  · intro s msg hc hm
    simp only [handle_ws_command, hc, hm, Option.some.injEq, Option.getD_none]
    simp
  · intro s msg m hc hm h1 h2
    simp only [handle_ws_command, hc, hm, Option.some.injEq, Option.getD_some]
    simp [h1, h2]

/-- Witness for C9: a concrete mode-less message at the initial state. -/
theorem C9_witness :
    handle_ws_command ⟨some "set_alarm_mode", none, none⟩ initialState =
      .ok ⟨{ initialState with alarm_mode := "auto" }, [],
        [statusOf { initialState with alarm_mode := "auto" }]⟩ :=
  C9_set_alarm_mode.1 initialState ⟨some "set_alarm_mode", none, none⟩ rfl rfl

/-- **C10** — a `set_threshold` or `set_gain` message whose `"value"` is a
string `int()` cannot parse makes `handle_ws_command` raise (modelled as
`.error`), for any current state, rather than being silently ignored; the
receive loop in `websocket_endpoint` catches only `WebSocketDisconnect`, so
this exception terminates that observer's loop. -/
theorem C10_bad_value_raises (s : SensorState) :
    handle_ws_command ⟨some "set_threshold", none, some (.str "abc")⟩ s =
      .error "ValueError" ∧
    handle_ws_command ⟨some "set_gain", none, some (.str "abc")⟩ s =
      .error "ValueError" := by
  constructor <;> rfl

/-! ## Claims about the event router: history ring buffer (C6) -/

theorem handle_event_max_events (t : ℚ) (e : Event) (s : SensorState) :
    (handle_event t e s).max_events = s.max_events := by
  simp only [handle_event, add_event, set_alarm]
  split_ifs <;> rfl

theorem add_event_events (e : Event) (s : SensorState) (hmax : s.max_events = 50)
    (hlen : s.events.length ≤ 50) :
    (add_event e s).events = (e :: s.events).take 50 := by
  simp only [add_event, hmax]
  by_cases h : (e :: s.events).length > 50
  · rw [if_pos h, List.dropLast_eq_take]
    congr 1
    simp only [List.length_cons] at h ⊢
    omega
  · rw [if_neg h, List.take_of_length_le]
    omega

theorem take_append_take {α : Type} (n : Nat) (A B : List α) :
    (A ++ B.take n).take n = (A ++ B).take n := by
  rw [List.take_append_eq_append_take, List.take_append_eq_append_take, List.take_take]
  congr 1
  rw [Nat.min_eq_left (Nat.sub_le n A.length)]

/-- Non-map events do not change the history other than through
`add_event`; map events do not touch it at all. -/
theorem handle_event_events (t : ℚ) (e : Event) (s : SensorState) :
    (handle_event t e s).events =
      if e.etype = "map" then s.events else (add_event e { s with events := s.events }).events := by
  simp only [handle_event, add_event, set_alarm]
  split_ifs <;> simp_all

/-- The history after routing any event sequence: the non-map events, newest
first, clipped to the 50 most recent on top of what was already there. -/
theorem route_events (l : List (ℚ × Event)) :
    ∀ s : SensorState, s.max_events = 50 → s.events.length ≤ 50 →
    (route l s).events =
      (((l.map Prod.snd).filter (fun e => e.etype != "map")).reverse ++ s.events).take 50 := by
  induction l with
  | nil =>
    intro s hmax hlen
    simp only [route, List.foldl_nil, List.map_nil, List.filter_nil, List.reverse_nil,
      List.nil_append]
    rw [List.take_of_length_le hlen]
  | cons te l ih =>
    intro s hmax hlen
    obtain ⟨t, e⟩ := te
    have hstep : route ((t, e) :: l) s = route l (handle_event t e s) := rfl
    rw [hstep]
    have hmax' : (handle_event t e s).max_events = 50 := by
      rw [handle_event_max_events, hmax]
    by_cases he : e.etype = "map"
    · have hev : (handle_event t e s).events = s.events := by
        rw [handle_event_events, if_pos he]
      have := ih (handle_event t e s) hmax' (by rw [hev]; exact hlen)
      rw [this, hev]
      simp only [List.map_cons, List.filter_cons]
      rw [if_neg (by simp [he])]
    · have hev : (handle_event t e s).events = (e :: s.events).take 50 := by
        rw [handle_event_events, if_neg he]
        exact add_event_events e _ hmax hlen
      have hlen' : (handle_event t e s).events.length ≤ 50 := by
        rw [hev]
        exact le_trans (List.length_take_le _ _) (le_refl _)
      have := ih (handle_event t e s) hmax' hlen'
      rw [this, hev]
      simp only [List.map_cons, List.filter_cons]
      rw [if_pos (by simp [he])]
      rw [List.reverse_cons, List.append_assoc]
      have : (e :: s.events) = [e] ++ s.events := rfl
      rw [this, take_append_take, ← List.append_assoc]

/-- The concrete detection event used in the C6 scenario. -/
def detEv (i : Nat) : Event := .detection 0 0 "A" "B" 0 0 0 (i : Int) "T"

set_option maxRecDepth 8192 in
/-- **C6** — after routing any event sequence from the initial state, the
history holds the non-map events, newest first, clipped to the 50 most
recent; hence it never exceeds 50 entries, the oldest entry is evicted
first, and no map event ever appears.  Concretely, after 60 detections the
history (sent verbatim to a connecting observer) is exactly the last 50,
newest first. -/
theorem C6_history :
    (∀ l : List (ℚ × Event),
      (route l initialState).events =
        (((l.map Prod.snd).filter (fun e => e.etype != "map")).reverse).take 50 ∧
      (route l initialState).events.length ≤ 50 ∧
      ∀ e ∈ (route l initialState).events, e.etype ≠ "map") ∧
    (route ((List.range 60).map fun i => ((0 : ℚ), detEv i)) initialState).events =
      ((List.range 50).map fun i => detEv (59 - i)) := by
  constructor
  · intro l
    have h := route_events l initialState rfl (by simp [initialState])
    rw [show initialState.events = [] from rfl, List.append_nil] at h
    refine ⟨h, ?_, ?_⟩
    · rw [h]
      exact le_trans (List.length_take_le _ _) (le_refl _)
    · intro e he
      rw [h] at he
      have h1 := List.mem_of_mem_take he
      rw [List.mem_reverse] at h1
      have h2 := List.of_mem_filter h1
      simpa using h2
  · decide

/-! ## Claims about the event router: map cache (C7) -/

theorem insertByUnitId_perm (e : Event) (l : List Event) :
    List.Perm (insertByUnitId e l) (e :: l) := by
  induction l with
  | nil => simp [insertByUnitId]
  | cons x xs ih =>
    simp only [insertByUnitId]
    split_ifs
    · exact (ih.cons x).trans (List.Perm.swap e x xs)
    · exact List.Perm.refl _

theorem sortByUnitId_perm_aux (l : List Event) :
    ∀ acc : List Event,
      List.Perm (l.foldl (fun a e => insertByUnitId e a) acc) (l ++ acc) := by
  induction l with
  | nil => intro acc; simp
  | cons e l ih =>
    intro acc
    simp only [List.foldl_cons, List.cons_append]
    refine (ih (insertByUnitId e acc)).trans ?_
    refine (List.Perm.append_left l (insertByUnitId_perm e acc)).trans ?_
    exact List.perm_middle

theorem sortByUnitId_perm (l : List Event) : List.Perm (sortByUnitId l) l := by
  have h := sortByUnitId_perm_aux l []
  simpa [sortByUnitId] using h

theorem insertByUnitId_sorted {e : Event} {l : List Event}
    (h : l.Pairwise fun a b => eventUnitId a ≤ eventUnitId b) :
    (insertByUnitId e l).Pairwise fun a b => eventUnitId a ≤ eventUnitId b := by
  induction l with
  | nil => simp [insertByUnitId]
  | cons x xs ih =>
    rw [List.pairwise_cons] at h
    obtain ⟨hx, hxs⟩ := h
    simp only [insertByUnitId]
    split_ifs with hle
    · rw [List.pairwise_cons]
      refine ⟨?_, ih hxs⟩
      intro y hy
      have hmem : y ∈ e :: xs := (insertByUnitId_perm e xs).mem_iff.mp hy
      rcases List.mem_cons.mp hmem with hy2 | hy2
      · rw [hy2]; exact hle
      · exact hx y hy2
    · rw [List.pairwise_cons]
      refine ⟨?_, List.pairwise_cons.mpr ⟨hx, hxs⟩⟩
      intro y hy
      rcases List.mem_cons.mp hy with hy | hy
      · rw [hy]; exact le_of_lt (lt_of_not_le hle)
      · exact le_trans (le_of_lt (lt_of_not_le hle)) (hx y hy)

theorem sortByUnitId_sorted_aux (l : List Event) :
    ∀ acc : List Event, (acc.Pairwise fun a b => eventUnitId a ≤ eventUnitId b) →
      ((l.foldl (fun a e => insertByUnitId e a) acc).Pairwise
        fun a b => eventUnitId a ≤ eventUnitId b) := by
  induction l with
  | nil => intro acc h; simpa using h
  | cons e l ih =>
    intro acc h
    exact ih (insertByUnitId e acc) (insertByUnitId_sorted h)

theorem sortByUnitId_sorted (l : List Event) :
    (sortByUnitId l).Pairwise fun a b => eventUnitId a ≤ eventUnitId b :=
  sortByUnitId_sorted_aux l [] (by simp)

/-- Pairwise distinctness of `unit_id` is stable under permutation. -/
theorem pairwise_ne_of_perm {l l' : List Event}
    (h : List.Perm l l')
    (hp : l.Pairwise fun a b => eventUnitId a ≠ eventUnitId b) :
    l'.Pairwise fun a b => eventUnitId a ≠ eventUnitId b :=
  (h.pairwise_iff fun hab => Ne.symm hab).mp hp

/-- Sorted + pairwise-distinct keys = strictly sorted. -/
theorem pairwise_lt_of_le_ne {l : List Event}
    (h1 : l.Pairwise fun a b => eventUnitId a ≤ eventUnitId b)
    (h2 : l.Pairwise fun a b => eventUnitId a ≠ eventUnitId b) :
    l.Pairwise fun a b => eventUnitId a < eventUnitId b :=
  (h1.and h2).imp fun hab => lt_of_le_of_ne hab.1 hab.2

theorem handle_event_map_data (t : ℚ) (e : Event) (s : SensorState) :
    (handle_event t e s).map_data =
      if e.etype = "map" then
        sortByUnitId ((s.map_data.filter fun u => eventUnitId u != eventUnitId e) ++ [e])
      else s.map_data := by
  simp only [handle_event, add_event, set_alarm]
  split_ifs <;> simp_all

/-- One routing step preserves the strictly-sorted-by-`unit_id` shape of the
map cache. -/
theorem handle_event_inv (t : ℚ) (e : Event) (s : SensorState)
    (h : s.map_data.Pairwise fun a b => eventUnitId a < eventUnitId b) :
    (handle_event t e s).map_data.Pairwise
      fun a b => eventUnitId a < eventUnitId b := by
  rw [handle_event_map_data]
  split_ifs with he
  · set fl := s.map_data.filter fun u => eventUnitId u != eventUnitId e with hfl
    have hflp : fl.Pairwise fun a b => eventUnitId a < eventUnitId b :=
      h.sublist (List.filter_sublist _)
    have hne : (fl ++ [e]).Pairwise fun a b => eventUnitId a ≠ eventUnitId b := by
      rw [List.pairwise_append]
      refine ⟨hflp.imp fun hab => ne_of_lt hab, by simp, ?_⟩
      intro a ha b hb
      rw [List.mem_singleton] at hb
      subst hb
      have := List.of_mem_filter ha
      simpa using this
    have hperm := sortByUnitId_perm (fl ++ [e])
    exact pairwise_lt_of_le_ne (sortByUnitId_sorted _)
      (pairwise_ne_of_perm hperm.symm hne)
  · exact h

/-- **C7** — routing preserves the map-cache invariant: `map_data` is always
strictly sorted ascending by `unit_id` (hence holds no two entries with the
same `unit_id`); and routing a map event replaces the cached entry for its
unit, leaving that unit with exactly the new event as its one entry. -/
theorem C7_map_cache :
    (∀ l : List (ℚ × Event),
      (route l initialState).map_data.Pairwise
        fun a b => eventUnitId a < eventUnitId b) ∧
    (∀ (s : SensorState) (t : ℚ) (e : Event), e.etype = "map" →
      (handle_event t e s).map_data.filter
        (fun u => eventUnitId u == eventUnitId e) = [e]) := by
  constructor
  · intro l
    have haux : ∀ s : SensorState,
        (s.map_data.Pairwise fun a b => eventUnitId a < eventUnitId b) →
        ((route l s).map_data.Pairwise fun a b => eventUnitId a < eventUnitId b) := by
      induction l with
      | nil => intro s h; exact h
      | cons te l ih =>
        intro s h
        exact ih (handle_event te.1 te.2 s) (handle_event_inv te.1 te.2 s h)
    exact haux initialState (by simp [initialState])
  · intro s t e he
    rw [handle_event_map_data, if_pos he]
    set fl := s.map_data.filter fun u => eventUnitId u != eventUnitId e with hfl
    have hperm : List.Perm
        ((sortByUnitId (fl ++ [e])).filter fun u => eventUnitId u == eventUnitId e)
        ((fl ++ [e]).filter fun u => eventUnitId u == eventUnitId e) :=
      (sortByUnitId_perm (fl ++ [e])).filter _
    have hbase : (fl ++ [e]).filter (fun u => eventUnitId u == eventUnitId e) = [e] := by
      rw [List.filter_append]
      have h1 : fl.filter (fun u => eventUnitId u == eventUnitId e) = [] := by
        rw [hfl, List.filter_filter]
        refine List.filter_eq_nil_iff.mpr ?_
        intro a ha
        simp
      rw [h1]
      simp
    rw [hbase] at hperm
    exact List.perm_singleton.mp hperm

/-- Witness for C7's replacement clause: a concrete map event for unit 5
entering the cache at the initial state. -/
theorem C7_witness :
    (handle_event 0 (.map 5 "v1" 30 3300 [] 9 "T") initialState).map_data.filter
      (fun u => eventUnitId u == eventUnitId (.map 5 "v1" 30 3300 [] 9 "T")) =
      [.map 5 "v1" 30 3300 [] 9 "T"] :=
  C7_map_cache.2 initialState 0 (.map 5 "v1" 30 3300 [] 9 "T") rfl

/-! ## Parser claims: groundwork -/

/-- A nonempty all-digit capture (what a `(\d+)` group always is). -/
def Digits1 (l : List Char) : Prop := l ≠ [] ∧ ∀ c ∈ l, isDigitC c = true

/-- What a `(-?\d+)` group always is. -/
def SignDigits1 (l : List Char) : Prop :=
  ∃ s g, l = s ++ g ∧ (s = [] ∨ s = ['-']) ∧ Digits1 g

theorem digit_not_space {c : Char} (h : isDigitC c = true) : isSpaceC c = false := by
  by_contra hs
  have hs' : isSpaceC c = true := by
    cases hb : isSpaceC c
    · exact absurd hb hs
    · rfl
  simp only [isSpaceC, Bool.or_eq_true, decide_eq_true_eq] at hs'
  rcases hs' with ((((h1 | h1) | h1) | h1) | h1) | h1 <;>
    (subst h1; exact absurd h (by decide))

theorem lit_sound {tok l r : List Char} (h : lit tok l = some r) : l = tok ++ r := by
  induction tok generalizing l with
  | nil => simp only [lit, Option.some.injEq] at h; subst h; rfl
  | cons c tok ih =>
    match l with
    | [] => simp [lit] at h
    | d :: l' =>
      simp only [lit] at h
      split at h
      · rename_i hcd
        subst hcd
        rw [List.cons_append]
        rw [ih h]
      · exact absurd h (by simp)

theorem dropWhile_all_false {p : Char → Bool} {l : List Char}
    (h : ∀ c ∈ l, p c = false) : l.dropWhile p = l := by
  cases l with
  | nil => rfl
  | cons c t =>
    rw [List.dropWhile_cons, h c (by simp)]
    simp

theorem pyStrip_of_nonspace {l : List Char} (h : ∀ c ∈ l, isSpaceC c = false) :
    pyStrip l = l := by
  unfold pyStrip
  rw [dropWhile_all_false h]
  rw [dropWhile_all_false (fun c hc => h c (List.mem_reverse.mp hc))]
  exact List.reverse_reverse l

theorem pyStrip_of_digits {l : List Char} (h : Digits1 l) : pyStrip l = l :=
  pyStrip_of_nonspace fun c hc => digit_not_space (h.2 c hc)

theorem pyInt_digits {l : List Char} (h : Digits1 l) :
    pyInt l = some ((digitsVal l : Nat) : Int) := by
  obtain ⟨hne, hall⟩ := h
  unfold pyInt
  rw [pyStrip_of_digits ⟨hne, hall⟩]
  match l, hne with
  | c :: t, _ =>
    have hc : isDigitC c = true := hall c (by simp)
    have hcm : c ≠ '-' := by intro he; subst he; exact absurd hc (by decide)
    have hcp : c ≠ '+' := by intro he; subst he; exact absurd hc (by decide)
    simp only [pyIntCore]
    rw [if_neg hcm, if_neg hcp, if_pos (List.all_eq_true.mpr hall)]

theorem pyInt_neg_digits {g : List Char} (h : Digits1 g) :
    pyInt ('-' :: g) = some (-((digitsVal g : Nat) : Int)) := by
  obtain ⟨hne, hall⟩ := h
  unfold pyInt
  have hstrip : pyStrip ('-' :: g) = '-' :: g := by
    refine pyStrip_of_nonspace ?_
    intro c hc
    rw [List.mem_cons] at hc
    rcases hc with hc | hc
    · subst hc; decide
    · exact digit_not_space (hall c hc)
  rw [hstrip]
  simp only [pyIntCore, if_true]
  rw [if_pos ⟨hne, List.all_eq_true.mpr hall⟩]

theorem pyInt_sign_digits {l : List Char} (h : SignDigits1 l) :
    ∃ v : Int, pyInt l = some v := by
  obtain ⟨sg, g, hl, hs, hg⟩ := h
  subst hl
  rcases hs with hs | hs
  · subst hs
    exact ⟨_, by simpa using pyInt_digits hg⟩
  · subst hs
    exact ⟨_, by simpa using pyInt_neg_digits hg⟩

theorem signSplit_cases (l : List Char) :
    (signSplit l).1 = [] ∨ (signSplit l).1 = ['-'] := by
  unfold signSplit
  split
  · exact Or.inr rfl
  · exact Or.inl rfl

/-- `Digits1` facts extracted from a successful `takeWhile1 isDigitC`. -/
theorem takeWhile1_digits {l g r : List Char}
    (h : takeWhile1 isDigitC l = some (g, r)) : Digits1 g :=
  ⟨(takeWhile1_sound h).1, (takeWhile1_sound h).2.1⟩

/-! ## Group shapes for each regex -/

theorem ts_groups {l : List Char} {gs r} (h : runToks TIMESTAMP_RE l = some (gs, r)) :
    ∃ ds rest, gs = [ds, rest] ∧ Digits1 ds := by
  unfold TIMESTAMP_RE at h
  obtain ⟨r1, h1, h⟩ := runToks_lit_inv h
  obtain ⟨ds, r2, gsx, h2, h, hgs1⟩ := runToks_grp1_inv h
  obtain ⟨r3, h3, h⟩ := runToks_lit_inv h
  obtain ⟨w1, r4, h4, h⟩ := runToks_skip1_inv h
  obtain ⟨r5, h5, h⟩ := runToks_lit_inv h
  obtain ⟨w2, r6, h6, h⟩ := runToks_skip1_inv h
  obtain ⟨gs2, h7, hgs2⟩ := runToks_grpRest_inv h
  obtain ⟨hgs3, -⟩ := runToks_nil_inv h7
  subst hgs3
  subst hgs2
  subst hgs1
  exact ⟨ds, _, rfl, takeWhile1_digits h2⟩

theorem det_groups {l : List Char} {gs r} (h : runToks DETECTION_RE l = some (gs, r)) :
    ∃ g1 g2 g3 g4 g5 g6 g7, gs = [g1, g2, g3, g4, g5, g6, g7] ∧
      Digits1 g2 ∧ Digits1 g4 ∧ Digits1 g5 ∧ Digits1 g6 ∧ Digits1 g7 := by
  unfold DETECTION_RE at h
  obtain ⟨r1, e1, h⟩ := runToks_lit_inv h
  obtain ⟨w1, r2, e2, h⟩ := runToks_skip1_inv h
  obtain ⟨g1, r3, gsa, e3, h, hga⟩ := runToks_grp1_inv h
  obtain ⟨r4, e4, h⟩ := runToks_lit_inv h
  obtain ⟨g2, r5, gsb, e5, h, hgb⟩ := runToks_grp1_inv h
  obtain ⟨r6, e6, h⟩ := runToks_lit_inv h
  obtain ⟨g3, r7, gsc, e7, h, hgc⟩ := runToks_grp1_inv h
  obtain ⟨r8, e8, h⟩ := runToks_lit_inv h
  obtain ⟨g4, r9, gsd, e9, h, hgd⟩ := runToks_grp1_inv h
  obtain ⟨r10, e10, h⟩ := runToks_lit_inv h
  obtain ⟨w2, r11, e11, h⟩ := runToks_skip1_inv h
  obtain ⟨r12, e12, h⟩ := runToks_lit_inv h
  obtain ⟨g5, r13, gse, e13, h, hge⟩ := runToks_grp1_inv h
  obtain ⟨w3, r14, e14, h⟩ := runToks_skip1_inv h
  obtain ⟨r15, e15, h⟩ := runToks_lit_inv h
  obtain ⟨g6, r16, gsf, e16, h, hgf⟩ := runToks_grp1_inv h
  obtain ⟨w4, r17, e17, h⟩ := runToks_skip1_inv h
  obtain ⟨r18, e18, h⟩ := runToks_lit_inv h
  obtain ⟨g7, r19, gsg, e19, h, hgg⟩ := runToks_grp1_inv h
  obtain ⟨hnil, -⟩ := runToks_nil_inv h
  subst hnil
  subst hgg; subst hgf; subst hge; subst hgd; subst hgc; subst hgb; subst hga
  exact ⟨g1, g2, g3, g4, g5, g6, g7, rfl, takeWhile1_digits e5, takeWhile1_digits e9,
    takeWhile1_digits e13, takeWhile1_digits e16, takeWhile1_digits e19⟩

theorem comm_groups {l : List Char} {gs r}
    (h : runToks DETECTION_COMM_RE l = some (gs, r)) :
    ∃ g1 g2 g3 g4 g5, gs = [g1, g2, g3, g4, g5] ∧
      Digits1 g2 ∧ Digits1 g4 ∧ Digits1 g5 := by
  unfold DETECTION_COMM_RE at h
  obtain ⟨r1, e1, h⟩ := runToks_lit_inv h
  obtain ⟨w1, r2, e2, h⟩ := runToks_skip1_inv h
  obtain ⟨g1, r3, gsa, e3, h, hga⟩ := runToks_grp1_inv h
  obtain ⟨r4, e4, h⟩ := runToks_lit_inv h
  obtain ⟨g2, r5, gsb, e5, h, hgb⟩ := runToks_grp1_inv h
  obtain ⟨r6, e6, h⟩ := runToks_lit_inv h
  obtain ⟨g3, r7, gsc, e7, h, hgc⟩ := runToks_grp1_inv h
  obtain ⟨r8, e8, h⟩ := runToks_lit_inv h
  obtain ⟨g4, r9, gsd, e9, h, hgd⟩ := runToks_grp1_inv h
  obtain ⟨r10, e10, h⟩ := runToks_lit_inv h
  obtain ⟨w2, r11, e11, h⟩ := runToks_skip1_inv h
  obtain ⟨g5, r12, gse, e12, h, hge⟩ := runToks_grp1_inv h
  obtain ⟨hnil, -⟩ := runToks_nil_inv h
  subst hnil
  subst hge; subst hgd; subst hgc; subst hgb; subst hga
  exact ⟨g1, g2, g3, g4, g5, rfl, takeWhile1_digits e5, takeWhile1_digits e9,
    takeWhile1_digits e12⟩

theorem conn_groups {l : List Char} {gs r}
    (h : runToks CONNECTED_RE l = some (gs, r)) :
    ∃ g1 g2 g3 g4 g5, gs = [g1, g2, g3, g4, g5] ∧ Digits1 g2 ∧ Digits1 g4 := by
  unfold CONNECTED_RE at h
  obtain ⟨r1, e1, h⟩ := runToks_lit_inv h
  obtain ⟨w1, r2, e2, h⟩ := runToks_skip1_inv h
  obtain ⟨g1, r3, gsa, e3, h, hga⟩ := runToks_grp1_inv h
  obtain ⟨r4, e4, h⟩ := runToks_lit_inv h
  obtain ⟨g2, r5, gsb, e5, h, hgb⟩ := runToks_grp1_inv h
  obtain ⟨r6, e6, h⟩ := runToks_lit_inv h
  obtain ⟨w2, r7, e7, h⟩ := runToks_skip1_inv h
  obtain ⟨r8, e8, h⟩ := runToks_lit_inv h
  obtain ⟨g3, r9, gsc, e9, h, hgc⟩ := runToks_grp1_inv h
  obtain ⟨r10, e10, h⟩ := runToks_lit_inv h
  obtain ⟨g4, r11, gsd, e11, h, hgd⟩ := runToks_grp1_inv h
  obtain ⟨r12, e12, h⟩ := runToks_lit_inv h
  obtain ⟨w3, r13, e13, h⟩ := runToks_skip1_inv h
  obtain ⟨c5, r14, gse, e14, hb, h, hge⟩ := runToks_grpOne_inv h
  obtain ⟨hnil, -⟩ := runToks_nil_inv h
  subst hnil
  subst hge; subst hgd; subst hgc; subst hgb; subst hga
  exact ⟨g1, g2, g3, g4, [c5], rfl, takeWhile1_digits e5, takeWhile1_digits e11⟩

theorem map_groups {l : List Char} {gs r}
    (h : runToks MAP_RSP_RE l = some (gs, r)) :
    ∃ g1 g2 g3 g4 g5 g6 g7, gs = [g1, g2, g3, g4, g5, g6, g7] ∧
      Digits1 g1 ∧ Digits1 g3 ∧ Digits1 g4 := by
  unfold MAP_RSP_RE at h
  obtain ⟨r1, e1, h⟩ := runToks_lit_inv h
  obtain ⟨w1, r2, e2, h⟩ := runToks_skip1_inv h
  obtain ⟨r3, e3, h⟩ := runToks_lit_inv h
  obtain ⟨w2, r4, e4, h⟩ := runToks_skip1_inv h
  obtain ⟨g1, r5, gsa, e5, h, hga⟩ := runToks_grp1_inv h
  obtain ⟨w3, r6, e6, h⟩ := runToks_skip1_inv h
  obtain ⟨r7, e7, h⟩ := runToks_lit_inv h
  obtain ⟨g2, r8, gsb, e8, h, hgb⟩ := runToks_grp1_inv h
  obtain ⟨w4, r9, e9, h⟩ := runToks_skip1_inv h
  obtain ⟨r10, e10, h⟩ := runToks_lit_inv h
  obtain ⟨g3, r11, gsc, e11, h, hgc⟩ := runToks_grp1_inv h
  obtain ⟨w5, r12, e12, h⟩ := runToks_skip1_inv h
  obtain ⟨r13, e13, h⟩ := runToks_lit_inv h
  obtain ⟨g4, r14, gsd, e14, h, hgd⟩ := runToks_grp1_inv h
  obtain ⟨w6, r15, e15, h⟩ := runToks_skip1_inv h
  obtain ⟨r16, e16, h⟩ := runToks_lit_inv h
  obtain ⟨g5, r17, gse, e17, h, hge⟩ := runToks_grp1_inv h
  obtain ⟨w7, r18, e18, h⟩ := runToks_skip1_inv h
  obtain ⟨r19, e19, h⟩ := runToks_lit_inv h
  obtain ⟨g6, r20, gsf, e20, h, hgf⟩ := runToks_grp1_inv h
  obtain ⟨r21, e21, h⟩ := runToks_lit_inv h
  obtain ⟨w8, r22, e22, h⟩ := runToks_skip1_inv h
  obtain ⟨gsg, e23, hgg⟩ := runToks_grpRest_inv h
  obtain ⟨hnil, -⟩ := runToks_nil_inv e23
  subst hnil
  subst hgg; subst hgf; subst hge; subst hgd; subst hgc; subst hgb; subst hga
  exact ⟨g1, g2, g3, g4, g5, g6, _, rfl, takeWhile1_digits e5, takeWhile1_digits e11,
    takeWhile1_digits e14⟩

theorem peer_groups {l : List Char} {gs r}
    (h : runToks MAP_PEER_RE l = some (gs, r)) :
    ∃ g1 g2 g3 g4, gs = [g1, g2, g3, g4] ∧
      Digits1 g1 ∧ Digits1 g2 ∧ SignDigits1 g3 ∧ Digits1 g4 := by
  unfold MAP_PEER_RE at h
  obtain ⟨r1, e1, h⟩ := runToks_lit_inv h
  obtain ⟨g1, r2, gsa, e2, h, hga⟩ := runToks_grp1_inv h
  obtain ⟨w1, r3, e3, h⟩ := runToks_skip1_inv h
  obtain ⟨r4, e4, h⟩ := runToks_lit_inv h
  obtain ⟨g2, r5, gsb, e5, h, hgb⟩ := runToks_grp1_inv h
  obtain ⟨w2, r6, e6, h⟩ := runToks_skip1_inv h
  obtain ⟨g3, r7, gsc, e7, h, hgc⟩ := runToks_grpSign_inv h
  obtain ⟨r8, e8, h⟩ := runToks_lit_inv h
  obtain ⟨w3, r9, e9, h⟩ := runToks_skip1_inv h
  obtain ⟨r10, e10, h⟩ := runToks_lit_inv h
  obtain ⟨g4, r11, gsd, e11, h, hgd⟩ := runToks_grp1_inv h
  obtain ⟨r12, e12, h⟩ := runToks_lit_inv h
  obtain ⟨hnil, -⟩ := runToks_nil_inv h
  subst hnil
  subst hgd; subst hgc; subst hgb; subst hga
  exact ⟨g1, g2, _, g4, rfl, takeWhile1_digits e2, takeWhile1_digits e5,
    ⟨_, _, rfl, signSplit_cases r6, takeWhile1_digits e7⟩, takeWhile1_digits e11⟩

theorem searchToks_some_inv {ts : List Tok} {l : List Char} {x}
    (h : searchToks ts l = some x) : ∃ t, runToks ts t = some x := by
  induction l with
  | nil => exact ⟨[], h⟩
  | cons c rest ih =>
    simp only [searchToks] at h
    cases heq : runToks ts (c :: rest) with
    | some a =>
      refine ⟨c :: rest, ?_⟩
      rw [heq] at h
      rw [heq]
      exact h
    | none =>
      rw [heq] at h
      exact ih h

/-- Shape of every group list that `peerScan` can produce. -/
def PeerShape (gs : List (List Char)) : Prop :=
  ∃ g1 g2 g3 g4, gs = [g1, g2, g3, g4] ∧
    Digits1 g1 ∧ Digits1 g2 ∧ SignDigits1 g3 ∧ Digits1 g4

theorem peerScanGo_sound :
    ∀ (n : Nat) (l : List Char), ∀ gs ∈ peerScanGo n l, PeerShape gs := by
  intro n
  induction n with
  | zero =>
    intro l gs hgs
    match l with
    | [] => simp [peerScanGo] at hgs
    | c :: rest => simp [peerScanGo] at hgs
  | succ n ih =>
    intro l gs hgs
    match l with
    | [] => simp [peerScanGo] at hgs
    | c :: rest =>
      rw [peerScanGo] at hgs
      split at hgs
      · rename_i gs0 after heq
        rcases List.mem_cons.mp hgs with hgs | hgs
        · subst hgs
          exact peer_groups heq
        · exact ih after gs hgs
      · exact ih rest gs hgs

theorem peerScan_sound {l : List Char} {gs} (h : gs ∈ peerScan l) : PeerShape gs :=
  peerScanGo_sound l.length l gs h

theorem buildPeer_some {gs} (h : PeerShape gs) : ∃ p, buildPeer gs = some p := by
  obtain ⟨g1, g2, g3, g4, hshape, h1, h2, h3, h4⟩ := h
  subst hshape
  obtain ⟨v3, hv3⟩ := pyInt_sign_digits h3
  refine ⟨⟨digitsVal g1, digitsVal g2, v3, digitsVal g4⟩, ?_⟩
  have e1 : grp [g1, g2, g3, g4] 1 = g1 := rfl
  have e2 : grp [g1, g2, g3, g4] 2 = g2 := rfl
  have e3 : grp [g1, g2, g3, g4] 3 = g3 := rfl
  have e4 : grp [g1, g2, g3, g4] 4 = g4 := rfl
  unfold buildPeer
  rw [e1, e2, e3, e4, pyInt_digits h1, pyInt_digits h2, hv3, pyInt_digits h4]
  rfl

theorem mapM_buildPeer_some :
    ∀ l : List (List (List Char)), (∀ gs ∈ l, PeerShape gs) →
      ∃ ps, l.mapM buildPeer = some ps := by
  intro l
  induction l with
  | nil => intro _; exact ⟨[], rfl⟩
  | cons gs l ih =>
    intro h
    obtain ⟨p, hp⟩ := buildPeer_some (h gs (by simp))
    obtain ⟨ps, hps⟩ := ih fun g hg => h g (List.mem_cons_of_mem _ hg)
    refine ⟨p :: ps, ?_⟩
    rw [List.mapM_cons, hp, hps]
    rfl

/-! ## C4: the parser never raises -/

theorem detectionEvent_ne_exc {now : String} {dts : Int} {gs : List (List Char)}
    (h : ∃ t r, runToks DETECTION_RE t = some (gs, r)) :
    detectionEvent now dts gs ≠ .exc := by
  obtain ⟨t, r, hrun⟩ := h
  obtain ⟨g1, g2, g3, g4, g5, g6, g7, hshape, d2, d4, d5, d6, d7⟩ := det_groups hrun
  subst hshape
  unfold detectionEvent
  split
  · simp
  · rename_i hcontra
    exact (hcontra _ _ _ _ _ (pyInt_digits d2) (pyInt_digits d4) (pyInt_digits d5)
      (pyInt_digits d6) (pyInt_digits d7)).elim

theorem commEvent_ne_exc {now : String} {dts : Int} {gs : List (List Char)}
    (h : ∃ t r, runToks DETECTION_COMM_RE t = some (gs, r)) :
    commEvent now dts gs ≠ .exc := by
  obtain ⟨t, r, hrun⟩ := h
  obtain ⟨g1, g2, g3, g4, g5, hshape, d2, d4, d5⟩ := comm_groups hrun
  subst hshape
  unfold commEvent
  split
  · simp
  · rename_i hcontra
    exact (hcontra _ _ _ (pyInt_digits d2) (pyInt_digits d4) (pyInt_digits d5)).elim

theorem connEvent_ne_exc {now : String} {dts : Int} {gs : List (List Char)}
    (h : ∃ t r, runToks CONNECTED_RE t = some (gs, r)) :
    connEvent now dts gs ≠ .exc := by
  obtain ⟨t, r, hrun⟩ := h
  obtain ⟨g1, g2, g3, g4, g5, hshape, d2, d4⟩ := conn_groups hrun
  subst hshape
  unfold connEvent
  split
  · simp
  · rename_i hcontra
    exact (hcontra _ _ (pyInt_digits d2) (pyInt_digits d4)).elim

theorem mapEvent_ne_exc {now : String} {dts : Int} {gs : List (List Char)}
    (h : ∃ t r, runToks MAP_RSP_RE t = some (gs, r)) :
    mapEvent now dts gs ≠ .exc := by
  obtain ⟨t, r, hrun⟩ := h
  obtain ⟨g1, g2, g3, g4, g5, g6, g7, hshape, d1, d3, d4⟩ := map_groups hrun
  subst hshape
  obtain ⟨ps, hps⟩ :=
    mapM_buildPeer_some (peerScan (grp [g1, g2, g3, g4, g5, g6, g7] 7))
      fun gs hgs => peerScan_sound hgs
  unfold mapEvent
  split
  · rename_i hnone
    rw [hps] at hnone
    exact absurd hnone (by simp)
  · split
    · simp
    · rename_i hcontra
      exact (hcontra _ _ _ (pyInt_digits d1) (pyInt_digits d3) (pyInt_digits d4)).elim

theorem dispatchContent_ne_exc (now : String) (dts : Int) (content : List Char) :
    dispatchContent now dts content ≠ .exc := by
  unfold dispatchContent
  split
  · rename_i hdet
    obtain ⟨t, hrun⟩ := searchToks_some_inv hdet
    exact detectionEvent_ne_exc ⟨t, _, hrun⟩
  · split
    · rename_i hcomm
      obtain ⟨t, hrun⟩ := searchToks_some_inv hcomm
      exact commEvent_ne_exc ⟨t, _, hrun⟩
    · split
      · rename_i hconn
        obtain ⟨t, hrun⟩ := searchToks_some_inv hconn
        exact connEvent_ne_exc ⟨t, _, hrun⟩
      · split
        · rename_i hmap
          obtain ⟨t, hrun⟩ := searchToks_some_inv hmap
          exact mapEvent_ne_exc ⟨t, _, hrun⟩
        · simp

/-- **C4** — for every input line (any string, any wall-clock stamp),
`parse_line` returns `None` or one event and never raises: every `int()`
it performs is applied to a capture of `(\d+)` or `(-?\d+)`, which always
parses. -/
theorem C4_no_exception (now raw : String) : parseLine now raw ≠ .exc := by
  unfold parseLine
  split
  · simp
  · split
    · simp
    · rename_i tpair tgs tr hts
      split
      · rename_i hnone
        obtain ⟨ds, rest, htgs, hds⟩ := ts_groups hts
        subst htgs
        rw [show grp [ds, rest] 1 = ds from rfl, pyInt_digits hds] at hnone
        exact absurd hnone (by simp)
      · exact dispatchContent_ne_exc now _ _

/-! ## C5: lines without the timestamp header -/

/-- The shape `TIMESTAMP_RE` demands of the start of a (stripped) line:
`[<digits>]`, whitespace, `I`, whitespace, anything. -/
def TsHeaderShape (l : List Char) : Prop :=
  ∃ ds w1 w2 rest, l = '[' :: (ds ++ (']' :: (w1 ++ ('I' :: (w2 ++ rest))))) ∧
    ds ≠ [] ∧ (∀ c ∈ ds, isDigitC c = true) ∧
    w1 ≠ [] ∧ (∀ c ∈ w1, isSpaceC c = true) ∧
    w2 ≠ [] ∧ (∀ c ∈ w2, isSpaceC c = true)

theorem tsMatch_shape {l : List Char} {x}
    (h : runToks TIMESTAMP_RE l = some x) : TsHeaderShape l := by
  obtain ⟨gsx0, rx0⟩ := x
  unfold TIMESTAMP_RE at h
  obtain ⟨r1, h1, h⟩ := runToks_lit_inv h
  obtain ⟨ds, r2, gsx, h2, h, -⟩ := runToks_grp1_inv h
  obtain ⟨r3, h3, h⟩ := runToks_lit_inv h
  obtain ⟨w1, r4, h4, h⟩ := runToks_skip1_inv h
  obtain ⟨r5, h5, h⟩ := runToks_lit_inv h
  obtain ⟨w2, r6, h6, -⟩ := runToks_skip1_inv h
  obtain ⟨hds1, hds2, hr0⟩ := takeWhile1_sound h2
  obtain ⟨hw11, hw12, hr2⟩ := takeWhile1_sound h4
  obtain ⟨hw21, hw22, hr4⟩ := takeWhile1_sound h6
  have hl : l = '[' :: r1 := by simpa using lit_sound h1
  have hr1 : r2 = ']' :: r3 := by simpa using lit_sound h3
  have hr3 : r4 = 'I' :: r5 := by simpa using lit_sound h5
  refine ⟨ds, w1, w2, r6, ?_, hds1, hds2, hw11, hw12, hw21, hw22⟩
  rw [hl, hr0, hr1, hr2, hr3, hr4]

/-- **C5** — any line that, after ANSI stripping and whitespace trimming,
does not begin with the `[<digits>] I ` header is rejected (`None`), whatever
the rest of the line contains. -/
theorem C5_no_header (now raw : String)
    (h : ¬ TsHeaderShape (pyStrip (ansiSub raw.toList))) :
    parseLine now raw = .noEvent := by
  unfold parseLine
  split
  · rfl
  · split
    · rfl
    · rename_i x hts
      exact absurd (tsMatch_shape hts) h

/-- Witness for C5: a line whose body matches the detection grammar but has
no timestamp header parses to nothing. -/
theorem C5_witness :
    parseLine "T" "CMD:DETECTION A(1)-B(2) th:500 val:600 c:3" = .noEvent := by
  refine C5_no_header "T" _ ?_
  intro hshape
  obtain ⟨ds, w1, w2, rest, heq, -⟩ := hshape
  have hval : pyStrip (ansiSub ("CMD:DETECTION A(1)-B(2) th:500 val:600 c:3" :
      String).toList) = ('C' :: "MD:DETECTION A(1)-B(2) th:500 val:600 c:3".toList) := by
    decide
  rw [hval] at heq
  exact absurd (List.head_eq_of_cons_eq heq) (by decide)

/-! ## C3: well-formed `CMD:MAP_RSP` lines.  First, rendering numbers. -/

/-- Base-10 rendering of a positive number, one digit per recursion step
(the fuel, always instantiated with a bound on the digit count, only makes
the recursion structural). -/
def natCharsGo : Nat → Nat → List Char
  | 0, _ => []
  | fuel + 1, n => if n = 0 then [] else natCharsGo fuel (n / 10) ++ [Nat.digitChar (n % 10)]

/-- Base-10 rendering of a natural number, as the device firmware prints
numeric fields. -/
def natChars (n : Nat) : List Char := if n = 0 then ['0'] else natCharsGo n n

/-- Base-10 rendering of an integer (`-` sign for negatives, as in the
`<signed-int>dBm` peer field). -/
def intChars (i : Int) : List Char :=
  if i < 0 then '-' :: natChars i.natAbs else natChars i.toNat

theorem digitChar_isDigit {d : Nat} (h : d < 10) :
    isDigitC (Nat.digitChar d) = true := by
  interval_cases d <;> decide

theorem digitVal_digitChar {d : Nat} (h : d < 10) : digitVal (Nat.digitChar d) = d := by
  interval_cases d <;> decide

theorem natCharsGo_digits : ∀ (fuel n : Nat), ∀ c ∈ natCharsGo fuel n, isDigitC c = true := by
  intro fuel
  induction fuel with
  | zero => intro n c hc; simp [natCharsGo] at hc
  | succ fuel ih =>
    intro n c hc
    rw [natCharsGo] at hc
    split at hc
    · simp at hc
    · rw [List.mem_append] at hc
      rcases hc with hc | hc
      · exact ih _ c hc
      · rw [List.mem_singleton] at hc
        subst hc
        exact digitChar_isDigit (Nat.mod_lt _ (by omega))

theorem digitsVal_append_one (l : List Char) (c : Char) :
    digitsVal (l ++ [c]) = digitsVal l * 10 + digitVal c := by
  simp [digitsVal, List.foldl_append]

theorem natCharsGo_val : ∀ (fuel n : Nat), n ≤ fuel → digitsVal (natCharsGo fuel n) = n := by
  intro fuel
  induction fuel with
  | zero =>
    intro n hn
    have : n = 0 := by omega
    subst this
    simp [natCharsGo, digitsVal]
  | succ fuel ih =>
    intro n hn
    rw [natCharsGo]
    split
    · rename_i h0
      subst h0
      simp [digitsVal]
    · rename_i h0
      rw [digitsVal_append_one, ih (n / 10) (by omega),
        digitVal_digitChar (Nat.mod_lt _ (by omega))]
      omega

theorem natChars_digits1 (n : Nat) : Digits1 (natChars n) := by
  unfold natChars
  split
  · exact ⟨by simp, by intro c hc; simp at hc; subst hc; decide⟩
  · rename_i h0
    refine ⟨?_, natCharsGo_digits n n⟩
    match n, h0 with
    | n + 1, _ =>
      rw [natCharsGo, if_neg (by omega)]
      simp

theorem digitsVal_natChars (n : Nat) : digitsVal (natChars n) = n := by
  unfold natChars
  split
  · rename_i h; subst h; decide
  · exact natCharsGo_val n n (le_refl n)

theorem pyInt_natChars (n : Nat) : pyInt (natChars n) = some (n : Int) := by
  rw [pyInt_digits (natChars_digits1 n), digitsVal_natChars]

theorem pyInt_intChars (i : Int) : pyInt (intChars i) = some i := by
  unfold intChars
  split
  · rename_i h
    rw [pyInt_neg_digits (natChars_digits1 _), digitsVal_natChars]
    simp only [Option.some.injEq]
    omega
  · rename_i h
    rw [pyInt_natChars]
    simp only [Option.some.injEq]
    omega

/-! ## Character tameness for constructed lines -/

/-- Characters that cannot disturb the parse of a constructed map line: not
an `ESC` (ANSI stripping), not a newline (`.` and line splitting), not `'E'`
(`'E'` occurs in the three keywords tried before `CMD:MAP_RSP`, whose
searches must fail). -/
def tameC (c : Char) : Bool := !(c = '\x1b' || c = '\n' || c = 'E')

/-- Constraint on version-token characters: any non-whitespace character
(exactly what `(\S+)` matches), barring only the two characters that would
disturb the surrounding parse: a raw `ESC` (would interact with ANSI
stripping) and `'E'` (occurs in the three keywords whose searches must fail
before `CMD:MAP_RSP` is tried). -/
def verOk (c : Char) : Bool := isNonSpaceC c && c != '\x1b' && c != 'E'

theorem ne_of_pred {P : Char → Bool} {c x : Char} (h : P c = true)
    (hx : P x = false) : c ≠ x := by
  intro he
  subst he
  rw [h] at hx
  exact Bool.noConfusion hx

theorem tameC_spec {c : Char} (h : tameC c = true) :
    c ≠ '\x1b' ∧ c ≠ '\n' ∧ c ≠ 'E' := by
  refine ⟨ne_of_pred h (by decide), ne_of_pred h (by decide), ne_of_pred h (by decide)⟩

theorem digit_tame {c : Char} (h : isDigitC c = true) : tameC c = true := by
  simp only [tameC, Bool.not_eq_true', Bool.or_eq_false_iff, decide_eq_false_iff_not]
  exact ⟨⟨ne_of_pred h (by decide), ne_of_pred h (by decide)⟩, ne_of_pred h (by decide)⟩

theorem verOk_parts {c : Char} (h : verOk c = true) :
    isNonSpaceC c = true ∧ c ≠ '\x1b' ∧ c ≠ 'E' := by
  simp only [verOk, Bool.and_eq_true, bne_iff_ne] at h
  exact ⟨h.1.1, h.1.2, h.2⟩

theorem verOk_nonspace {c : Char} (h : verOk c = true) : isSpaceC c = false := by
  have h1 := (verOk_parts h).1
  simp only [isNonSpaceC, Bool.not_eq_true'] at h1
  exact h1

theorem verOk_tame {c : Char} (h : verOk c = true) : tameC c = true := by
  obtain ⟨h1, h2, h3⟩ := verOk_parts h
  simp only [tameC, Bool.not_eq_true', Bool.or_eq_false_iff, decide_eq_false_iff_not]
  refine ⟨⟨h2, ?_⟩, h3⟩
  exact ne_of_pred h1 (by decide)

theorem digit_nonspace {c : Char} (h : isDigitC c = true) : isSpaceC c = false :=
  digit_not_space h

/-! ## Forward evaluation of `runToks` on constructed input -/

/-- The next character (if any) does not extend a greedy class match. -/
def brkAt (p : Char → Bool) : List Char → Prop
  | [] => True
  | c :: _ => p c = false

theorem takeWhile_exact {p : Char → Bool} {g r : List Char}
    (hall : ∀ c ∈ g, p c = true) (hb : brkAt p r) :
    (g ++ r).takeWhile p = g ∧ (g ++ r).dropWhile p = r := by
  induction g with
  | nil =>
    match r with
    | [] => exact ⟨rfl, rfl⟩
    | c :: r' =>
      have hc : p c = false := hb
      constructor
      · rw [List.nil_append, List.takeWhile_cons, hc]
        simp
      · rw [List.nil_append, List.dropWhile_cons, hc]
        simp
  | cons c g ih =>
    have hc : p c = true := hall c (by simp)
    obtain ⟨ht, hd⟩ := ih fun x hx => hall x (List.mem_cons_of_mem _ hx)
    constructor
    · rw [List.cons_append, List.takeWhile_cons, hc]
      simp [ht]
    · rw [List.cons_append, List.dropWhile_cons, hc]
      simpa using hd

theorem takeWhile1_exact {p : Char → Bool} {g r : List Char} (hne : g ≠ [])
    (hall : ∀ c ∈ g, p c = true) (hb : brkAt p r) :
    takeWhile1 p (g ++ r) = some (g, r) := by
  obtain ⟨ht, hd⟩ := takeWhile_exact hall hb
  unfold takeWhile1
  rw [ht, hd]
  simp [List.isEmpty_iff, hne]

theorem lit_self (s r : List Char) : lit s (s ++ r) = some r := by
  induction s with
  | nil => rfl
  | cons c s ih => simp [lit, ih]

theorem step_lit {s l : List Char} {ts : List Tok} {x}
    (h : runToks ts l = some x) : runToks (.lit s :: ts) (s ++ l) = some x := by
  simp only [runToks, lit_self, Option.some_bind]
  exact h

theorem step_skip1 {p : Char → Bool} {g l : List Char} {ts : List Tok} {x}
    (hne : g ≠ []) (hall : ∀ c ∈ g, p c = true) (hb : brkAt p l)
    (h : runToks ts l = some x) : runToks (.skip1 p :: ts) (g ++ l) = some x := by
  simp only [runToks, takeWhile1_exact hne hall hb, Option.some_bind]
  exact h

theorem step_skip1_one {p : Char → Bool} {c : Char} {l : List Char} {ts : List Tok} {x}
    (hc : p c = true) (hb : brkAt p l) (h : runToks ts l = some x) :
    runToks (.skip1 p :: ts) (c :: l) = some x := by
  have := step_skip1 (g := [c]) (by simp) (by simpa using hc) hb h
  simpa using this

theorem step_grp1 {p : Char → Bool} {g l : List Char} {ts : List Tok} {gs rr}
    (hne : g ≠ []) (hall : ∀ c ∈ g, p c = true) (hb : brkAt p l)
    (h : runToks ts l = some (gs, rr)) :
    runToks (.grp1 p :: ts) (g ++ l) = some (g :: gs, rr) := by
  simp only [runToks, takeWhile1_exact hne hall hb, Option.some_bind, h]

theorem step_grpOne {p : Char → Bool} {c : Char} {l : List Char} {ts : List Tok} {gs rr}
    (hc : p c = true) (h : runToks ts l = some (gs, rr)) :
    runToks (.grpOne p :: ts) (c :: l) = some ([c] :: gs, rr) := by
  simp only [runToks, hc, if_true, h, Option.some_bind]

theorem step_grpSign_nonneg {g l : List Char} {ts : List Tok} {gs rr}
    (hne : g ≠ []) (hall : ∀ c ∈ g, isDigitC c = true) (hb : brkAt isDigitC l)
    (h : runToks ts l = some (gs, rr)) :
    runToks (.grpSign isDigitC :: ts) (g ++ l) = some (g :: gs, rr) := by
  have hsp : signSplit (g ++ l) = ([], g ++ l) := by
    match g, hne with
    | c :: g', _ =>
      have hc : isDigitC c = true := hall c (by simp)
      have : c ≠ '-' := ne_of_pred hc (by decide)
      rw [List.cons_append]
      unfold signSplit
      cases c
      simp_all
  simp only [runToks, hsp, takeWhile1_exact hne hall hb, Option.some_bind, h]
  simp

theorem step_grpSign_neg {g l : List Char} {ts : List Tok} {gs rr}
    (hne : g ≠ []) (hall : ∀ c ∈ g, isDigitC c = true) (hb : brkAt isDigitC l)
    (h : runToks ts l = some (gs, rr)) :
    runToks (.grpSign isDigitC :: ts) (('-' :: g) ++ l) = some (('-' :: g) :: gs, rr) := by
  have hsp : signSplit (('-' :: g) ++ l) = (['-'], g ++ l) := rfl
  simp only [runToks, hsp, takeWhile1_exact hne hall hb, Option.some_bind, h]
  simp

theorem takeWhile_no_nl {l : List Char} (h : ∀ c ∈ l, c ≠ '\n') :
    (l.takeWhile fun c => c != '\n') = l ∧ (l.dropWhile fun c => c != '\n') = [] := by
  have := takeWhile_exact (p := fun c => c != '\n') (g := l) (r := [])
    (fun c hc => by simpa using h c hc) trivial
  simpa using this

theorem step_grpRest_end {l : List Char} (h : ∀ c ∈ l, c ≠ '\n') :
    runToks [.grpRest] l = some ([l], []) := by
  obtain ⟨ht, hd⟩ := takeWhile_no_nl h
  simp only [runToks, ht, hd, Option.some_bind]

theorem searchToks_head {ts : List Tok} {l : List Char} {x}
    (h : runToks ts l = some x) : searchToks ts l = some x := by
  match l with
  | [] => exact h
  | c :: rest =>
    simp only [searchToks]
    rw [h]

theorem searchToks_none_of_char {s : List Char} {ts : List Tok} {l : List Char}
    {ch : Char} (hch : ch ∈ s) (hno : ch ∉ l) :
    searchToks (.lit s :: ts) l = none := by
  induction l with
  | nil =>
    have hs : s ≠ [] := by intro he; subst he; simp at hch
    match s, hs with
    | c :: s', _ =>
      simp [searchToks, runToks, lit]
  | cons d rest ih =>
    simp only [searchToks]
    have hne : runToks (.lit s :: ts) (d :: rest) = none := by
      cases heq : runToks (.lit s :: ts) (d :: rest) with
      | none => rfl
      | some x =>
        obtain ⟨r0, h0, -⟩ := runToks_lit_inv heq
        have hsound := lit_sound h0
        have : ch ∈ d :: rest := by
          rw [hsound]
          exact List.mem_append_left _ hch
        exact absurd this hno
    rw [hne]
    exact ih fun hm => hno (List.mem_cons_of_mem _ hm)

/-! ## Constructed well-formed map lines -/

/-- The field values of one well-formed peer record on the wire. -/
structure PeerRec where
  id : Nat
  th : Nat
  rssi : Int
  dt : Nat
deriving DecidableEq, Repr

/-- The peer dict `parse_line` builds for a well-formed peer record. -/
def toPeerInfo (p : PeerRec) : PeerInfo := ⟨(p.id : Int), (p.th : Int), p.rssi, (p.dt : Int)⟩

/-- `[<id> th3:<th> <rssi>dBm dt:<dt>]`, one well-formed peer fragment. -/
def peerFrag (p : PeerRec) : List Char :=
  '[' :: (natChars p.id ++ (' ' :: ("th3:".toList ++ (natChars p.th ++
    (' ' :: (intChars p.rssi ++ ("dBm".toList ++ (' ' :: ("dt:".toList ++
      (natChars p.dt ++ [']']))))))))))

/-- Space-separated peer fragments (the tail of a map line). -/
def peerBlock : List PeerRec → List Char
  | [] => []
  | [p] => peerFrag p
  | p :: ps => peerFrag p ++ (' ' :: peerBlock ps)

/-- The content of a well-formed `CMD:MAP_RSP` line (after the timestamp
header), per the wire grammar; `pstr` is the embedded peer area, an
*arbitrary* string in which any mix of matching and non-matching peer
fragments may sit. -/
def mkMapContent (uid : Nat) (ver : List Char) (g v sc adv : Nat)
    (pstr : List Char) : List Char :=
  "CMD:MAP_RSP".toList ++ (' ' :: ("from".toList ++ (' ' :: (natChars uid ++
    (' ' :: ("ver:".toList ++ (ver ++ (' ' :: ("gain:".toList ++ (natChars g ++
      (' ' :: ("voltage:".toList ++ (natChars v ++ (' ' :: ("scan:".toList ++
        (natChars sc ++ (' ' :: ("adv:".toList ++ (natChars adv ++
          (':' :: (' ' :: pstr)))))))))))))))))))))

/-- A full well-formed `CMD:MAP_RSP` line: `[<ts>] I <content>`. -/
def mkMapLine (ts : Nat) (uid : Nat) (ver : List Char) (g v sc adv : Nat)
    (pstr : List Char) : List Char :=
  '[' :: (natChars ts ++ (']' :: (' ' :: ('I' :: (' ' ::
    mkMapContent uid ver g v sc adv pstr)))))

/-! ### Last-character and tameness facts about the builders -/

theorem ends_cons {d c : Char} {b : List Char} (h : ∃ m, b = m ++ [d]) :
    ∃ m, c :: b = m ++ [d] := by
  obtain ⟨m, hm⟩ := h
  exact ⟨c :: m, by rw [hm]; rfl⟩

theorem ends_append {d : Char} {a b : List Char} (h : ∃ m, b = m ++ [d]) :
    ∃ m, a ++ b = m ++ [d] := by
  obtain ⟨m, hm⟩ := h
  exact ⟨a ++ m, by rw [hm, List.append_assoc]⟩

theorem peerFrag_ends (p : PeerRec) : ∃ m, peerFrag p = m ++ ([']'] : List Char) := by
  unfold peerFrag
  exact ends_cons (ends_append (ends_cons (ends_append (ends_append (ends_cons
    (ends_append (ends_append (ends_cons (ends_append (ends_append
      ⟨[], rfl⟩))))))))))

theorem peerBlock_ends {ps : List PeerRec} (h : ps ≠ []) :
    ∃ m, peerBlock ps = m ++ ([']'] : List Char) := by
  match ps, h with
  | [p], _ => exact peerFrag_ends p
  | p :: q :: ps', _ =>
    rw [show peerBlock (p :: q :: ps') = peerFrag p ++ (' ' :: peerBlock (q :: ps'))
      from rfl]
    exact ends_append (ends_cons (peerBlock_ends (by simp)))

theorem all_append {P : Char → Prop} {a b : List Char}
    (ha : ∀ c ∈ a, P c) (hb : ∀ c ∈ b, P c) : ∀ c ∈ a ++ b, P c := by
  intro c hc
  rcases List.mem_append.mp hc with hc | hc
  · exact ha c hc
  · exact hb c hc

theorem all_cons {P : Char → Prop} {d : Char} {b : List Char}
    (hd : P d) (hb : ∀ c ∈ b, P c) : ∀ c ∈ d :: b, P c := by
  intro c hc
  rcases List.mem_cons.mp hc with hc | hc
  · rw [hc]; exact hd
  · exact hb c hc

theorem natChars_tame (n : Nat) : ∀ c ∈ natChars n, tameC c = true :=
  fun c hc => digit_tame ((natChars_digits1 n).2 c hc)

theorem intChars_tame (i : Int) : ∀ c ∈ intChars i, tameC c = true := by
  unfold intChars
  split
  · exact all_cons (by decide) (natChars_tame _)
  · exact natChars_tame _

theorem peerFrag_tame (p : PeerRec) : ∀ c ∈ peerFrag p, tameC c = true := by
  unfold peerFrag
  exact all_cons (by decide) (all_append (natChars_tame _) (all_cons (by decide)
    (all_append (by decide) (all_append (natChars_tame _) (all_cons (by decide)
      (all_append (intChars_tame _) (all_append (by decide) (all_cons (by decide)
        (all_append (by decide) (all_append (natChars_tame _) (by decide)))))))))))

theorem peerBlock_tame (ps : List PeerRec) : ∀ c ∈ peerBlock ps, tameC c = true := by
  match ps with
  | [] => simp [peerBlock]
  | [p] => exact peerFrag_tame p
  | p :: q :: ps' =>
    rw [show peerBlock (p :: q :: ps') = peerFrag p ++ (' ' :: peerBlock (q :: ps'))
      from rfl]
    exact all_append (peerFrag_tame p) (all_cons (by decide) (peerBlock_tame (q :: ps')))

theorem mkMapContent_tame (uid : Nat) (ver : List Char) (g v sc adv : Nat)
    (pstr : List Char) (hver : ∀ c ∈ ver, verOk c = true)
    (hp : ∀ c ∈ pstr, tameC c = true) :
    ∀ c ∈ mkMapContent uid ver g v sc adv pstr, tameC c = true := by
  unfold mkMapContent
  exact all_append (by decide) (all_cons (by decide) (all_append (by decide)
    (all_cons (by decide) (all_append (natChars_tame _) (all_cons (by decide)
      (all_append (by decide) (all_append (fun c hc => verOk_tame (hver c hc))
        (all_cons (by decide) (all_append (by decide) (all_append (natChars_tame _)
          (all_cons (by decide) (all_append (by decide) (all_append (natChars_tame _)
            (all_cons (by decide) (all_append (by decide) (all_append (natChars_tame _)
              (all_cons (by decide) (all_append (by decide) (all_append (natChars_tame _)
                (all_cons (by decide) (all_cons (by decide)
                  hp)))))))))))))))))))))

theorem mkMapLine_tame (ts uid : Nat) (ver : List Char) (g v sc adv : Nat)
    (pstr : List Char) (hver : ∀ c ∈ ver, verOk c = true)
    (hp : ∀ c ∈ pstr, tameC c = true) :
    ∀ c ∈ mkMapLine ts uid ver g v sc adv pstr, tameC c = true := by
  unfold mkMapLine
  exact all_cons (by decide) (all_append (natChars_tame _) (all_cons (by decide)
    (all_cons (by decide) (all_cons (by decide) (all_cons (by decide)
      (mkMapContent_tame uid ver g v sc adv pstr hver hp))))))

/-! ### ANSI stripping and whitespace trimming leave a constructed line alone -/

theorem ansiSubGo_id : ∀ (fuel : Nat) (l : List Char),
    (∀ c ∈ l, c ≠ '\x1b') → ansiSubGo fuel l = l := by
  intro fuel
  induction fuel with
  | zero =>
    intro l h
    match l with
    | [] => rfl
    | c :: rest => rfl
  | succ fuel ih =>
    intro l h
    match l with
    | [] => rfl
    | c :: rest =>
      rw [ansiSubGo, if_neg (h c (by simp))]
      rw [ih rest fun x hx => h x (List.mem_cons_of_mem _ hx)]

theorem ansiSub_id {l : List Char} (h : ∀ c ∈ l, c ≠ '\x1b') : ansiSub l = l :=
  ansiSubGo_id l.length l h

theorem pyStrip_sandwich {c d : Char} {m : List Char} (hc : isSpaceC c = false)
    (hd : isSpaceC d = false) :
    pyStrip (c :: (m ++ [d])) = c :: (m ++ [d])  := by
  unfold pyStrip
  have h1 : List.dropWhile isSpaceC (c :: (m ++ [d])) = c :: (m ++ [d]) := by
    rw [List.dropWhile_cons, hc]
    simp
  rw [h1]
  have h2 : (c :: (m ++ [d])).reverse = d :: (m.reverse ++ [c]) := by
    simp
  rw [h2]
  have h3 : List.dropWhile isSpaceC (d :: (m.reverse ++ [c])) = d :: (m.reverse ++ [c]) := by
    rw [List.dropWhile_cons, hd]
    simp
  rw [h3, ← h2, List.reverse_reverse]

/-! ### Evaluating the matchers on constructed lines -/

theorem brkAt_cons {p : Char → Bool} {c : Char} {l : List Char}
    (h : p c = false) : brkAt p (c :: l) := h

theorem brkAt_space_of_digits {g : List Char} (h : Digits1 g) (X : List Char) :
    brkAt isSpaceC (g ++ X) := by
  obtain ⟨hne, hall⟩ := h
  match g, hne with
  | c :: g', _ => exact brkAt_cons (digit_nonspace (hall c (by simp)))

theorem brkAt_space_intChars (i : Int) (X : List Char) :
    brkAt isSpaceC (intChars i ++ X) := by
  unfold intChars
  split
  · exact brkAt_cons (by decide)
  · exact brkAt_space_of_digits (natChars_digits1 _) X

theorem step_grpSign_intChars {i : Int} {l : List Char} {ts : List Tok} {gs rr}
    (hb : brkAt isDigitC l) (h : runToks ts l = some (gs, rr)) :
    runToks (.grpSign isDigitC :: ts) (intChars i ++ l) =
      some (intChars i :: gs, rr) := by
  unfold intChars
  split
  · exact step_grpSign_neg (natChars_digits1 _).1 (natChars_digits1 _).2 hb h
  · exact step_grpSign_nonneg (natChars_digits1 _).1 (natChars_digits1 _).2 hb h

theorem ver_nonspace1 {ver : List Char} (h : ∀ c ∈ ver, verOk c = true) :
    ∀ c ∈ ver, isNonSpaceC c = true :=
  fun c hc => (verOk_parts (h c hc)).1

/-- `MAP_PEER_RE` consumes exactly a well-formed peer fragment, capturing
its four fields. -/
theorem runToks_peerFrag (p : PeerRec) (r : List Char) :
    runToks MAP_PEER_RE (peerFrag p ++ r) =
      some ([natChars p.id, natChars p.th, intChars p.rssi, natChars p.dt], r) := by
  unfold MAP_PEER_RE peerFrag
  simp only [List.cons_append, List.append_assoc, List.singleton_append, List.nil_append]
  exact step_lit (step_grp1 (natChars_digits1 _).1 (natChars_digits1 _).2
    (brkAt_cons (by decide))
    (step_skip1_one (by decide) (brkAt_cons (by decide))
      (step_lit (step_grp1 (natChars_digits1 _).1 (natChars_digits1 _).2
        (brkAt_cons (by decide))
        (step_skip1_one (by decide) (brkAt_space_intChars p.rssi _)
          (step_grpSign_intChars (brkAt_cons (by decide))
            (step_lit (step_skip1_one (by decide) (brkAt_cons (by decide))
              (step_lit (step_grp1 (natChars_digits1 _).1 (natChars_digits1 _).2
                (brkAt_cons (by decide))
                (step_lit rfl)))))))))))

/-- The group lists of the peer fragments of a well-formed block. -/
def fragGroups (p : PeerRec) : List (List Char) :=
  [natChars p.id, natChars p.th, intChars p.rssi, natChars p.dt]

theorem peerFrag_length_pos (p : PeerRec) : 0 < (peerFrag p).length := by
  unfold peerFrag
  simp

theorem runToks_peer_space_none (X : List Char) :
    runToks MAP_PEER_RE (' ' :: X) = none := by
  unfold MAP_PEER_RE
  simp [runToks, lit]

theorem peerFrag_cons (p : PeerRec) : ∃ c inner, peerFrag p = c :: inner := by
  match hx : peerFrag p with
  | [] =>
    have := peerFrag_length_pos p
    rw [hx] at this
    simp at this
  | c :: inner => exact ⟨c, inner, rfl⟩

theorem peerScanGo_block :
    ∀ (fuel : Nat) (ps : List PeerRec), (peerBlock ps).length ≤ fuel →
      peerScanGo fuel (peerBlock ps) = ps.map fragGroups := by
  intro F
  induction F using Nat.strong_induction_on with
  | _ F ih =>
    intro ps hf
    match ps with
    | [] => match F with | 0 => rfl | _ + 1 => rfl
    | [p] =>
      obtain ⟨c, inner, hfr⟩ := peerFrag_cons p
      have hblock : peerBlock [p] = c :: inner := by
        rw [show peerBlock [p] = peerFrag p from rfl, hfr]
      rw [hblock] at hf ⊢
      simp only [List.length_cons] at hf
      match F, hf with
      | F1 + 1, hf1 =>
        rw [peerScanGo]
        have heval := runToks_peerFrag p []
        rw [List.append_nil, hfr] at heval
        rw [heval]
        match F1 with
        | 0 => rfl
        | _ + 1 => rfl
    | p :: q :: ps' =>
      obtain ⟨c, inner, hfr⟩ := peerFrag_cons p
      have hblock : peerBlock (p :: q :: ps') =
          c :: (inner ++ (' ' :: peerBlock (q :: ps'))) := by
        rw [show peerBlock (p :: q :: ps') = peerFrag p ++ (' ' :: peerBlock (q :: ps'))
          from rfl, hfr]
        rfl
      rw [hblock] at hf ⊢
      simp only [List.length_cons, List.length_append] at hf
      match F, hf with
      | F1 + 1, hf1 =>
        rw [peerScanGo]
        have heval := runToks_peerFrag p (' ' :: peerBlock (q :: ps'))
        rw [hfr, List.cons_append] at heval
        rw [heval]
        show fragGroups p :: peerScanGo F1 (' ' :: peerBlock (q :: ps')) =
          (p :: q :: ps').map fragGroups
        have h2 : (peerBlock (q :: ps')).length + 1 ≤ F1 := by omega
        match F1, h2 with
        | F2 + 1, h3 =>
          rw [peerScanGo, runToks_peer_space_none]
          show fragGroups p :: peerScanGo F2 (peerBlock (q :: ps')) =
            (p :: q :: ps').map fragGroups
          rw [ih F2 (by omega) (q :: ps') (by omega)]
          rfl

theorem peerScan_block (ps : List PeerRec) :
    peerScan (peerBlock ps) = ps.map fragGroups :=
  peerScanGo_block (peerBlock ps).length ps (le_refl _)

theorem buildPeer_frag (p : PeerRec) : buildPeer (fragGroups p) = some (toPeerInfo p) := by
  unfold buildPeer fragGroups
  rw [show grp [natChars p.id, natChars p.th, intChars p.rssi, natChars p.dt] 1 =
    natChars p.id from rfl]
  rw [show grp [natChars p.id, natChars p.th, intChars p.rssi, natChars p.dt] 2 =
    natChars p.th from rfl]
  rw [show grp [natChars p.id, natChars p.th, intChars p.rssi, natChars p.dt] 3 =
    intChars p.rssi from rfl]
  rw [show grp [natChars p.id, natChars p.th, intChars p.rssi, natChars p.dt] 4 =
    natChars p.dt from rfl]
  rw [pyInt_natChars, pyInt_natChars, pyInt_intChars, pyInt_natChars]
  rfl

theorem mapM_block (ps : List PeerRec) :
    (ps.map fragGroups).mapM buildPeer = some (ps.map toPeerInfo) := by
  induction ps with
  | nil => rfl
  | cons p ps ih =>
    rw [List.map_cons, List.mapM_cons, buildPeer_frag, ih]
    rfl

/-- The peer dicts of exactly the fragments of `l` that match the peer
sub-grammar, in scan order (`finditer` followed by the dict conversion). -/
def peersOf (l : List Char) : List PeerInfo := (peerScan l).filterMap buildPeer

theorem mapM_filterMap_of_shapes :
    ∀ gl : List (List (List Char)), (∀ gs ∈ gl, PeerShape gs) →
      gl.mapM buildPeer = some (gl.filterMap buildPeer) := by
  intro gl
  induction gl with
  | nil => intro _; rfl
  | cons gs gl ih =>
    intro h
    obtain ⟨p, hp⟩ := buildPeer_some (h gs (by simp))
    rw [List.mapM_cons, hp, ih fun g hg => h g (List.mem_cons_of_mem _ hg),
      List.filterMap_cons, hp]
    rfl

/-- On any input, the peer conversion loop of `parse_line` succeeds and
produces `peersOf`. -/
theorem mapM_eq_peersOf (l : List Char) :
    (peerScan l).mapM buildPeer = some (peersOf l) :=
  mapM_filterMap_of_shapes (peerScan l) fun gs hgs => peerScan_sound hgs

theorem filterMap_fragGroups (ps : List PeerRec) :
    (ps.map fragGroups).filterMap buildPeer = ps.map toPeerInfo := by
  induction ps with
  | nil => rfl
  | cons p ps ih =>
    rw [List.map_cons, List.filterMap_cons, buildPeer_frag, List.map_cons, ih]

/-- On a block of well-formed fragments, the scan recovers exactly the
rendered records. -/
theorem peersOf_block (ps : List PeerRec) :
    peersOf (peerBlock ps) = ps.map toPeerInfo := by
  unfold peersOf
  rw [peerScan_block, filterMap_fragGroups]

theorem brkAt_space_peerBlock {ps : List PeerRec} (h : ps ≠ []) :
    brkAt isSpaceC (peerBlock ps) := by
  match ps, h with
  | [p], _ =>
    rw [show peerBlock [p] = peerFrag p from rfl]
    unfold peerFrag
    exact brkAt_cons (by decide)
  | p :: q :: ps', _ =>
    rw [show peerBlock (p :: q :: ps') = peerFrag p ++ (' ' :: peerBlock (q :: ps'))
      from rfl]
    unfold peerFrag
    exact brkAt_cons (by decide)

theorem peerBlock_no_nl (ps : List PeerRec) : ∀ c ∈ peerBlock ps, c ≠ '\n' :=
  fun c hc => (tameC_spec (peerBlock_tame ps c hc)).2.1

/-- `MAP_RSP_RE` matches a constructed map content at its head, capturing
the seven groups — whatever mix of matching and non-matching peer fragments
the peer area `pstr` holds (it only must not start with whitespace, which
the greedy `\s+` would otherwise swallow, and must contain no newline). -/
theorem runToks_mkMapContent (uid : Nat) (ver : List Char) (g v sc adv : Nat)
    (pstr : List Char) (hb : brkAt isSpaceC pstr)
    (hnl : ∀ c ∈ pstr, c ≠ '\n') (hver_ne : ver ≠ [])
    (hver : ∀ c ∈ ver, verOk c = true) :
    runToks MAP_RSP_RE (mkMapContent uid ver g v sc adv pstr) =
      some ([natChars uid, ver, natChars g, natChars v, natChars sc, natChars adv,
        pstr], []) := by
  unfold MAP_RSP_RE mkMapContent
  exact step_lit (step_skip1_one (by decide) (brkAt_cons (by decide))
    (step_lit (step_skip1_one (by decide) (brkAt_space_of_digits (natChars_digits1 _) _)
      (step_grp1 (natChars_digits1 _).1 (natChars_digits1 _).2 (brkAt_cons (by decide))
        (step_skip1_one (by decide) (brkAt_cons (by decide))
          (step_lit (step_grp1 hver_ne (ver_nonspace1 hver) (brkAt_cons (by decide))
            (step_skip1_one (by decide) (brkAt_cons (by decide))
              (step_lit (step_grp1 (natChars_digits1 _).1 (natChars_digits1 _).2
                (brkAt_cons (by decide))
                (step_skip1_one (by decide) (brkAt_cons (by decide))
                  (step_lit (step_grp1 (natChars_digits1 _).1 (natChars_digits1 _).2
                    (brkAt_cons (by decide))
                    (step_skip1_one (by decide) (brkAt_cons (by decide))
                      (step_lit (step_grp1 (natChars_digits1 _).1 (natChars_digits1 _).2
                        (brkAt_cons (by decide))
                        (step_skip1_one (by decide) (brkAt_cons (by decide))
                          (step_lit (step_grp1 (natChars_digits1 _).1
                            (natChars_digits1 _).2 (brkAt_cons (by decide))
                            (step_lit (step_skip1_one (by decide)
                              hb
                              (step_grpRest_end hnl))))))))))))))))))))))

theorem mkMapContent_no_nl (uid : Nat) (ver : List Char) (g v sc adv : Nat)
    (pstr : List Char) (hver : ∀ c ∈ ver, verOk c = true)
    (hp : ∀ c ∈ pstr, tameC c = true) :
    ∀ c ∈ mkMapContent uid ver g v sc adv pstr, c ≠ '\n' :=
  fun c hc => (tameC_spec (mkMapContent_tame uid ver g v sc adv pstr hver hp c hc)).2.1

/-- `TIMESTAMP_RE` matches a well-formed map line at its head, capturing the
device timestamp digits and the content. -/
theorem runToks_mkMapLine (ts uid : Nat) (ver : List Char) (g v sc adv : Nat)
    (pstr : List Char) (hver : ∀ c ∈ ver, verOk c = true)
    (hp : ∀ c ∈ pstr, tameC c = true) :
    runToks TIMESTAMP_RE (mkMapLine ts uid ver g v sc adv pstr) =
      some ([natChars ts, mkMapContent uid ver g v sc adv pstr], []) := by
  unfold TIMESTAMP_RE mkMapLine
  exact step_lit (step_grp1 (natChars_digits1 _).1 (natChars_digits1 _).2
    (brkAt_cons (by decide))
    (step_lit (step_skip1_one (by decide) (brkAt_cons (by decide))
      (step_lit (step_skip1_one (by decide)
        (by unfold mkMapContent; exact brkAt_cons (by decide))
        (step_grpRest_end (mkMapContent_no_nl uid ver g v sc adv pstr hver hp)))))))

theorem dispatchContent_map {dts : Int} {now : String} {content : List Char}
    {gs : List (List Char)} {r : List Char} (hE : 'E' ∉ content)
    (hmap : searchToks MAP_RSP_RE content = some (gs, r)) :
    dispatchContent now dts content = mapEvent now dts gs := by
  unfold dispatchContent
  have hd : searchToks DETECTION_RE content = none :=
    searchToks_none_of_char (by decide) hE
  have hc : searchToks DETECTION_COMM_RE content = none :=
    searchToks_none_of_char (by decide) hE
  have hn : searchToks CONNECTED_RE content = none :=
    searchToks_none_of_char (by decide) hE
  rw [hd, hc, hn, hmap]

theorem mapEvent_mk (now : String) (dts : Int) (uid : Nat) (ver : List Char)
    (g v : Nat) (sc adv pstr : List Char) :
    mapEvent now dts [natChars uid, ver, natChars g, natChars v, sc, adv, pstr] =
      .event (.map (uid : Int) ⟨ver⟩ (g : Int) (v : Int) (peersOf pstr) dts now) := by
  unfold mapEvent
  rw [show grp [natChars uid, ver, natChars g, natChars v, sc, adv, pstr] 7 = pstr
    from rfl]
  rw [mapM_eq_peersOf]
  show (match pyInt (grp [natChars uid, ver, natChars g, natChars v, sc, adv,
      pstr] 1), pyInt (grp [natChars uid, ver, natChars g, natChars v, sc, adv,
      pstr] 3), pyInt (grp [natChars uid, ver, natChars g, natChars v, sc, adv,
      pstr] 4) with
    | some u, some ga, some vo =>
      POut.event (.map u ⟨grp [natChars uid, ver, natChars g, natChars v, sc, adv,
        pstr] 2⟩ ga vo (peersOf pstr) dts now)
    | _, _, _ => POut.exc) = _
  rw [show grp [natChars uid, ver, natChars g, natChars v, sc, adv, pstr] 1 =
    natChars uid from rfl]
  rw [show grp [natChars uid, ver, natChars g, natChars v, sc, adv, pstr] 3 =
    natChars g from rfl]
  rw [show grp [natChars uid, ver, natChars g, natChars v, sc, adv, pstr] 4 =
    natChars v from rfl]
  rw [pyInt_natChars, pyInt_natChars, pyInt_natChars]
  rfl

theorem mkMapContent_ends (uid : Nat) (ver : List Char) (g v sc adv : Nat)
    {pstr m0 : List Char} {d : Char} (hp : pstr = m0 ++ [d]) :
    ∃ m, mkMapContent uid ver g v sc adv pstr = m ++ [d] := by
  unfold mkMapContent
  subst hp
  exact ends_append (ends_cons (ends_append (ends_cons (ends_append (ends_cons
    (ends_append (ends_append (ends_cons (ends_append (ends_append (ends_cons
      (ends_append (ends_append (ends_cons (ends_append (ends_append (ends_cons
        (ends_append (ends_append (ends_cons (ends_cons
          ⟨m0, rfl⟩)))))))))))))))))))))

theorem mkMapLine_clean (ts uid : Nat) (ver : List Char) (g v sc adv : Nat)
    {pstr m0 : List Char} {d : Char} (hpd : pstr = m0 ++ [d])
    (hd : isSpaceC d = false) (hver : ∀ c ∈ ver, verOk c = true)
    (hp : ∀ c ∈ pstr, tameC c = true) :
    pyStrip (ansiSub (mkMapLine ts uid ver g v sc adv pstr)) =
      mkMapLine ts uid ver g v sc adv pstr := by
  have htame := mkMapLine_tame ts uid ver g v sc adv pstr hver hp
  rw [ansiSub_id fun c hc => (tameC_spec (htame c hc)).1]
  obtain ⟨m, hm⟩ :
      ∃ m, natChars ts ++ (']' :: (' ' :: ('I' :: (' ' ::
        mkMapContent uid ver g v sc adv pstr)))) = m ++ [d] :=
    ends_append (ends_cons (ends_cons (ends_cons (ends_cons
      (mkMapContent_ends uid ver g v sc adv hpd)))))
  show pyStrip ('[' :: (natChars ts ++ (']' :: (' ' :: ('I' :: (' ' ::
    mkMapContent uid ver g v sc adv pstr)))))) = _
  rw [hm, pyStrip_sandwich (by decide) hd, ← hm]
  rfl

/-- **C3 counterexample** — the well-formed `CMD:MAP_RSP` line with an
*empty* peer list (nothing after the `adv:0:` header) parses to `None`, not
to a map event: `MAP_RSP_RE` demands at least one whitespace character after
the header (`adv:(\d+):\s+`), which `str.strip()` has removed. -/
theorem C3_counterexample :
    parseLine "T" "[9] I CMD:MAP_RSP from 5 ver:v1 gain:30 voltage:3300 scan:1 adv:0:" =
      .noEvent := by decide

set_option maxHeartbeats 1000000 in
set_option maxRecDepth 8192 in
/-- **C3 (amended)** — three parts. (1) For an arbitrary peer area `pstr`
(clear of ESC, newline and the letter `E`, not starting in whitespace and
ending in a non-whitespace character, so that `strip()` and the line
grammar leave it intact), a well-formed `CMD:MAP_RSP` header followed by
`pstr` parses to a map event whose `peers` list is `peersOf pstr`: exactly
the fragments of `pstr` that `MAP_PEER_RE` matches, in scan order — a
non-matching fragment yields fewer peers, never an exception (`verOk`
keeps the version token inside `\S+` and clear of ESC and of the other
grammars' discriminating letter). (2) On a block of well-formed fragments,
`peersOf` returns exactly the rendered records. (3) Concretely, a line
whose peer area holds a junk fragment between two good ones parses to the
two good peers. A line with an *empty* peer list parses to `None` instead
(see the counterexample): the regex requires whitespace after the
`adv:<int>:` header, which `strip()` has removed. -/
theorem C3_map_rsp_amended :
    (∀ (now : String) (ts uid : Nat) (ver : List Char) (g v sc adv : Nat)
      (pstr m0 : List Char) (d : Char),
      pstr = m0 ++ [d] → isSpaceC d = false → brkAt isSpaceC pstr →
      (∀ c ∈ pstr, tameC c = true) →
      ver ≠ [] → (∀ c ∈ ver, verOk c = true) →
      parseLine now ⟨mkMapLine ts uid ver g v sc adv pstr⟩ =
        .event (.map (uid : Int) ⟨ver⟩ (g : Int) (v : Int)
          (peersOf pstr) (ts : Int) now)) ∧
    (∀ ps : List PeerRec, peersOf (peerBlock ps) = ps.map toPeerInfo) ∧
    parseLine "T" "[9] I CMD:MAP_RSP from 5 ver:v1 gain:30 voltage:3300 scan:1 adv:2: [1 th3:500 -70dBm dt:12] [oops] [2 th3:400 -60dBm dt:7]" =
      .event (.map 5 "v1" 30 3300 [⟨1, 500, -70, 12⟩, ⟨2, 400, -60, 7⟩] 9 "T") := by
  refine ⟨?_, peersOf_block, by decide⟩
  intro now ts uid ver g v sc adv pstr m0 d hpd hd hb htame hvne hver
  have hclean : pyStrip (ansiSub (String.mk
      (mkMapLine ts uid ver g v sc adv pstr)).toList) =
      mkMapLine ts uid ver g v sc adv pstr :=
    mkMapLine_clean ts uid ver g v sc adv hpd hd hver htame
  unfold parseLine
  rw [hclean]
  rw [if_neg (by unfold mkMapLine; simp)]
  rw [runToks_mkMapLine ts uid ver g v sc adv pstr hver htame]
  show (match pyInt (grp [natChars ts, mkMapContent uid ver g v sc adv pstr] 1) with
    | none => POut.exc
    | some device_ts =>
      dispatchContent now device_ts
        (grp [natChars ts, mkMapContent uid ver g v sc adv pstr] 2)) = _
  rw [show grp [natChars ts, mkMapContent uid ver g v sc adv pstr] 1 = natChars ts
    from rfl, pyInt_natChars ts]
  show dispatchContent now (ts : Int)
    (grp [natChars ts, mkMapContent uid ver g v sc adv pstr] 2) = _
  rw [show grp [natChars ts, mkMapContent uid ver g v sc adv pstr] 2 =
    mkMapContent uid ver g v sc adv pstr from rfl]
  have hE : 'E' ∉ mkMapContent uid ver g v sc adv pstr := by
    intro hmem
    exact absurd (mkMapContent_tame uid ver g v sc adv pstr hver htame 'E' hmem)
      (by decide)
  have hnl : ∀ c ∈ pstr, c ≠ '\n' := fun c hc => (tameC_spec (htame c hc)).2.1
  rw [dispatchContent_map hE (searchToks_head
    (runToks_mkMapContent uid ver g v sc adv pstr hb hnl hvne hver))]
  exact mapEvent_mk now (ts : Int) uid ver g v (natChars sc) (natChars adv) pstr

/-- Witness for C3 (amended): a concrete peer area holding one good
fragment followed by junk parses to exactly the one good peer. -/
theorem C3_witness :
    parseLine "T" ⟨mkMapLine 9 5 "v1".toList 30 3300 1 2
        "[1 th3:500 -70dBm dt:12] junk".toList⟩ =
      .event (.map 5 ⟨"v1".toList⟩ 30 3300 [⟨1, 500, -70, 12⟩] 9 "T") :=
  (C3_map_rsp_amended.1 "T" 9 5 "v1".toList 30 3300 1 2
    "[1 th3:500 -70dBm dt:12] junk".toList
    "[1 th3:500 -70dBm dt:12] jun".toList 'k' (by rfl) (by decide)
    (brkAt_cons (by decide)) (by decide) (by decide) (by decide)).trans
    (by decide)

end TplDemo